import Mathlib

/-!
# exchange-101: a limit order book

A shallow embedding of `orderbook.go`.

Go pointers are modelled by references into an explicit store: an `*Order` is an
`OrderRef`, a `*Limit` is a `LimitRef`, and a nil pointer field is `none`.  Pointer
equality (`l.Orders[i] == o`) is equality of references.  Every function that mutates
an object through a pointer takes the store and returns the updated store.

`float64` sizes and prices are read as exact rational numbers: every finite float is a
rational, and the arithmetic of the model does not round.  Timestamps (`int64`) are only
ever compared, so they are integers.
-/

namespace Exchange

/-! ## Data model -/

/-- The address of an `Order` object. -/
abbrev OrderRef := Nat

/-- The address of a `Limit` object. -/
abbrev LimitRef := Nat

/-- The struct `Order`. -/
structure Order where
  Size : ℚ
  Bid : Bool
  Limit : Option LimitRef
  Timestamp : Int
deriving DecidableEq

/-- The struct `Limit`; `Orders` is the slice type `Orders []*Order`. -/
structure Limit where
  Price : ℚ
  Orders : List OrderRef
  TotalVolume : ℚ
deriving DecidableEq

/-- The struct `Match`. -/
structure Match where
  Ask : Option OrderRef
  Bid : Option OrderRef
  SizeFilled : ℚ
  Price : ℚ
deriving DecidableEq

/-- The objects reachable through pointers: the orders, the limits, and the next address
at which `&Limit{...}` allocates. -/
structure Store where
  order : OrderRef → Order
  limit : LimitRef → Limit
  next : LimitRef

/-- The assignment `o.Limit = v`. -/
def Store.setOrderLimit (s : Store) (o : OrderRef) (v : Option LimitRef) : Store :=
  { s with order := Function.update s.order o { s.order o with Limit := v } }

/-- The assignment `l.Orders = q`. -/
def Store.setOrders (s : Store) (l : LimitRef) (q : List OrderRef) : Store :=
  { s with limit := Function.update s.limit l { s.limit l with Orders := q } }

/-- The assignment `l.TotalVolume = v`. -/
def Store.setTotalVolume (s : Store) (l : LimitRef) (v : ℚ) : Store :=
  { s with limit := Function.update s.limit l { s.limit l with TotalVolume := v } }

/-! ## Orders and limits -/

/-- The method `Orders.Less`, on the two orders compared: `o[i].Timestamp < o[j].Timestamp`. -/
def Orders.Less (s : Store) (a b : OrderRef) : Bool :=
  decide ((s.order a).Timestamp < (s.order b).Timestamp)

/-- The relation a slice satisfies after `sort.Sort`: no element is `Less` than one
before it. -/
def Orders.notAfter (s : Store) (a b : OrderRef) : Prop :=
  Orders.Less s b a = false

instance (s : Store) : DecidableRel (Orders.notAfter s) :=
  fun a b => inferInstanceAs (Decidable (Orders.Less s b a = false))

/-- The library call `sort.Sort(l.Orders)`.  The Go library sorts a short slice by
insertion sort, moving each element left while it is `Less` than its predecessor; that is
the algorithm used here for every length.  In general the library only promises a
permutation in which no element is `Less` than an earlier one, without stability, and what
is stated below about queues of any length holds of every such permutation. -/
def sortSort (s : Store) (q : List OrderRef) : List OrderRef :=
  q.insertionSort (Orders.notAfter s)

/-- The function `NewLimit`: allocates a limit at the given price with an empty queue and
zero volume, and returns its address. -/
def NewLimit (s : Store) (price : ℚ) : LimitRef × Store :=
  (s.next,
   { s with
     limit := Function.update s.limit s.next { Price := price, Orders := [], TotalVolume := 0 }
     next := s.next + 1 })

/-- The method `Limit.AddOrder`. -/
def Limit.AddOrder (s : Store) (l : LimitRef) (o : OrderRef) : Store :=
  -- o.Limit = l
  let s1 := s.setOrderLimit o (some l)
  -- l.Orders = append(l.Orders, o)
  let s2 := s1.setOrders l ((s1.limit l).Orders ++ [o])
  -- l.TotalVolume += o.Size
  s2.setTotalVolume l ((s2.limit l).TotalVolume + (s2.order o).Size)

/-- The loop of `DeleteOrder`: at the first index `i` with `l.Orders[i] == o` the tail is
shifted one position left and the slice is shortened by one, then the loop breaks; when no
index matches the slice is left as it is. -/
def spliceFirst (o : OrderRef) : List OrderRef → List OrderRef
  | [] => []
  | x :: xs => if x = o then xs else x :: spliceFirst o xs

/-- The method `Limit.DeleteOrder`. -/
def Limit.DeleteOrder (s : Store) (l : LimitRef) (o : OrderRef) : Store :=
  -- for i := range l.Orders { if l.Orders[i] == o { ...; break } }
  let s1 := s.setOrders l (spliceFirst o (s.limit l).Orders)
  -- o.Limit = nil
  let s2 := s1.setOrderLimit o none
  -- l.TotalVolume -= o.Size
  let s3 := s2.setTotalVolume l ((s2.limit l).TotalVolume - (s2.order o).Size)
  -- sort.Sort(l.Orders)
  s3.setOrders l (sortSort s3 (s3.limit l).Orders)

/-- The sum of `Size` over the orders of a queue. -/
def queueVolume (s : Store) (q : List OrderRef) : ℚ :=
  (q.map fun o => (s.order o).Size).sum

/-- The timestamps of the orders of a queue, in queue order. -/
def queueTimestamps (s : Store) (q : List OrderRef) : List Int :=
  q.map fun o => (s.order o).Timestamp

/-- A call of one of the two mutating methods of a limit. -/
inductive LimitCall where
  | AddOrder (o : OrderRef)
  | DeleteOrder (o : OrderRef)
deriving DecidableEq

/-- Runs a sequence of `AddOrder` and `DeleteOrder` calls on the limit `l`, in order. -/
def runLimitCalls (l : LimitRef) : Store → List LimitCall → Store
  | s, [] => s
  | s, LimitCall.AddOrder o :: cs => runLimitCalls l (Limit.AddOrder s l o) cs
  | s, LimitCall.DeleteOrder o :: cs => runLimitCalls l (Limit.DeleteOrder s l o) cs

/-! ## The order book -/

/-- The Go type `map[float64]*Limit`: a finite map from prices to limits. -/
abbrev PriceIndex := AList (fun _ : ℚ => LimitRef)

/-- The struct `Orderbook`. -/
structure Orderbook where
  Asks : List LimitRef
  Bids : List LimitRef
  AskLimits : PriceIndex
  BidLimits : PriceIndex

/-- The function `NewOrderbook`. -/
def NewOrderbook : Orderbook :=
  { Asks := [], Bids := [], AskLimits := ∅, BidLimits := ∅ }

/-- The method `Orderbook.add`.  A map read of an absent key yields nil, which is `none`
here. -/
def Orderbook.add (ob : Orderbook) (s : Store) (price : ℚ) (o : OrderRef) :
    Orderbook × Store :=
  let limit : Option LimitRef :=
    if (s.order o).Bid then ob.BidLimits.lookup price else ob.AskLimits.lookup price
  match limit with
  | some _ => (ob, s)
  | none =>
    let r := NewLimit s price
    if (s.order o).Bid then
      ({ ob with Bids := ob.Bids ++ [r.1], BidLimits := ob.BidLimits.insert price r.1 }, r.2)
    else
      ({ ob with Asks := ob.Asks ++ [r.1], AskLimits := ob.AskLimits.insert price r.1 }, r.2)

/-- The method `Orderbook.PlaceOrder`: the returned slice of matches, the book and the
store after the call. -/
def Orderbook.PlaceOrder (ob : Orderbook) (s : Store) (price : ℚ) (o : OrderRef) :
    List Match × Orderbook × Store :=
  if (s.order o).Size > 0 then
    let r := ob.add s price o
    ([], r.1, r.2)
  else
    ([], ob, s)

/-- Runs a sequence of `PlaceOrder(price, o)` calls, in order, dropping the returned
matches. -/
def runPlaceOrders : Orderbook × Store → List (ℚ × OrderRef) → Orderbook × Store
  | st, [] => st
  | st, c :: cs => runPlaceOrders (st.1.PlaceOrder st.2 c.1 c.2).2 cs

/-- The prices of the limits of a slice of limits, in slice order. -/
def levelPrices (s : Store) (ls : List LimitRef) : List ℚ :=
  ls.map fun l => (s.limit l).Price

/-! ## Concrete stores -/

/-- Orders created one after the other, as `NewOrder` does: the three buy orders of
`TestLimit`, then a larger buy order and a sell order. -/
def arrivalOrders : OrderRef → Order
  | 0 => { Size := 5, Bid := true, Limit := none, Timestamp := 1 }
  | 1 => { Size := 8, Bid := true, Limit := none, Timestamp := 2 }
  | 2 => { Size := 10, Bid := true, Limit := none, Timestamp := 3 }
  | 3 => { Size := 2000, Bid := true, Limit := none, Timestamp := 4 }
  | 4 => { Size := 5, Bid := false, Limit := none, Timestamp := 5 }
  | _ => { Size := 1, Bid := false, Limit := none, Timestamp := 0 }

/-- A store in which no limit has been allocated yet. -/
def freshStore : Store :=
  { order := arrivalOrders, limit := fun _ => { Price := 0, Orders := [], TotalVolume := 0 },
    next := 0 }

/-- The store of `TestLimit` just before its `DeleteOrder`: the limit at address 0 has
price 10000 and holds the orders 0, 1, 2. -/
def testLimitStore : Store :=
  runLimitCalls 0 (NewLimit freshStore 10000).2
    [LimitCall.AddOrder 0, LimitCall.AddOrder 1, LimitCall.AddOrder 2]

/-- Orders whose timestamps run against the order in which they are added. -/
def skewedOrders : OrderRef → Order
  | 0 => { Size := 5, Bid := true, Limit := none, Timestamp := 3 }
  | 1 => { Size := 8, Bid := true, Limit := none, Timestamp := 2 }
  | 2 => { Size := 10, Bid := true, Limit := none, Timestamp := 1 }
  | _ => { Size := 1, Bid := false, Limit := none, Timestamp := 0 }

/-- A store whose limit at address 0 holds the orders 0, 1, 2 of `skewedOrders`, added in
that order. -/
def skewedStore : Store :=
  runLimitCalls 0
    (NewLimit { order := skewedOrders,
                limit := fun _ => { Price := 0, Orders := [], TotalVolume := 0 },
                next := 0 } 10000).2
    [LimitCall.AddOrder 0, LimitCall.AddOrder 1, LimitCall.AddOrder 2]

/-- The entries of a price index that agrees with a slice of limits: one entry for each
limit of the slice, under the price of that limit, the limit appended last coming first. -/
def indexEntries (s : Store) (ls : List LimitRef) : List (Σ _ : ℚ, LimitRef) :=
  ls.reverse.map fun l => ⟨(s.limit l).Price, l⟩

/-- The invariant of a book built by `PlaceOrder`: each price index holds exactly the
limits of its slice, each under the price it carries, and every limit of the book has been
allocated. -/
def Orderbook.Agrees (ob : Orderbook) (s : Store) : Prop :=
  ob.AskLimits.entries = indexEntries s ob.Asks ∧
  ob.BidLimits.entries = indexEntries s ob.Bids ∧
  (∀ l ∈ ob.Asks, l < s.next) ∧
  (∀ l ∈ ob.Bids, l < s.next)

/-- The book and store of `TestOrderbook` after its two calls: a buy order of size 10 placed
at 18000, then a buy order of size 2000 placed at 19000. -/
def testOrderbook : Orderbook × Store :=
  runPlaceOrders (NewOrderbook, freshStore) [(18000, 2), (19000, 3)]

/-- Two sell orders resting in the limits of `restingAsksStore`, and three buy orders that
rest nowhere, the last of them of size 0. -/
def restingAsksOrders : OrderRef → Order
  | 0 => { Size := 10, Bid := false, Limit := some 0, Timestamp := 1 }
  | 1 => { Size := 5, Bid := false, Limit := some 1, Timestamp := 2 }
  | 2 => { Size := 12, Bid := true, Limit := none, Timestamp := 3 }
  | 3 => { Size := 15, Bid := true, Limit := none, Timestamp := 4 }
  | 4 => { Size := 0, Bid := true, Limit := none, Timestamp := 5 }
  | _ => { Size := 1, Bid := false, Limit := none, Timestamp := 0 }

/-- The store of a book with the resting asks 10@100 and 5@101: the limit at address 0 has
price 100 and holds the sell order 0, the limit at address 1 has price 101 and holds the
sell order 1. -/
def restingAsksStore : Store :=
  { order := restingAsksOrders,
    limit := fun l =>
      match l with
      | 0 => { Price := 100, Orders := [0], TotalVolume := 10 }
      | 1 => { Price := 101, Orders := [1], TotalVolume := 5 }
      | _ => { Price := 0, Orders := [], TotalVolume := 0 },
    next := 2 }

/-- The book over `restingAsksStore`: asks 10@100 and 5@101, no bids. -/
def restingAsksBook : Orderbook :=
  { Asks := [0, 1], Bids := [],
    AskLimits := (AList.insert 100 0 ∅).insert 101 1, BidLimits := ∅ }

/-- Two sell orders resting in the one limit of `sharedLevelStore`, order 0 added before
order 1, and two buy orders that rest nowhere. -/
def sharedLevelOrders : OrderRef → Order
  | 0 => { Size := 10, Bid := false, Limit := some 0, Timestamp := 1 }
  | 1 => { Size := 5, Bid := false, Limit := some 0, Timestamp := 2 }
  | 2 => { Size := 12, Bid := true, Limit := none, Timestamp := 3 }
  | 3 => { Size := 15, Bid := true, Limit := none, Timestamp := 4 }
  | _ => { Size := 1, Bid := false, Limit := none, Timestamp := 0 }

/-- The store of a book with two asks resting at the price 100: the limit at address 0
holds the sell order 0 and, behind it, the sell order 1. -/
def sharedLevelStore : Store :=
  { order := sharedLevelOrders,
    limit := fun l =>
      match l with
      | 0 => { Price := 100, Orders := [0, 1], TotalVolume := 15 }
      | _ => { Price := 0, Orders := [], TotalVolume := 0 },
    next := 1 }

/-- The book over `sharedLevelStore`: one ask level at price 100, no bids. -/
def sharedLevelBook : Orderbook :=
  { Asks := [0], Bids := [], AskLimits := AList.insert 100 0 ∅, BidLimits := ∅ }

/-! ## Prices that may be NaN

The embedding above reads a `float64` price as an exact number.  One value that a `float64`
parameter can carry is no number: NaN, which `==` finds equal to nothing, itself included,
so that a map read at the key NaN never finds an entry and a map write at the key NaN
always makes a new one.  Nothing in `PlaceOrder` or `add` inspects the price, so they run on
NaN as on any price.  This section embeds `NewLimit`, `NewOrderbook`, `Orderbook.add` and
`Orderbook.PlaceOrder` once more, statement by statement as above, over prices that may be
NaN.  Sizes are still exact numbers; the only use of a size here is the test
`o.Size > 0.0`. -/

/-- A `float64` price: an exact number, or NaN. -/
inductive Float64 where
  | num (q : ℚ)
  | NaN
deriving DecidableEq

/-- The comparison `a == b` of Go on `float64`, which is also the equality of map keys:
two numbers are equal when they are the same number, and NaN is equal to nothing. -/
def Float64.eq : Float64 → Float64 → Bool
  | Float64.num a, Float64.num b => decide (a = b)
  | _, _ => false

namespace F64

/-- The struct `Limit`, its `Price` a `float64` that may be NaN. -/
structure Limit where
  Price : Float64
  Orders : List OrderRef
  TotalVolume : ℚ
deriving DecidableEq

/-- The objects reachable through pointers, as in `Exchange.Store`. -/
structure Store where
  order : OrderRef → Order
  limit : LimitRef → Limit
  next : LimitRef

/-- The Go type `map[float64]*Limit`, as the list of its entries.  The order of the entries
is not observable. -/
structure PriceIndex where
  entries : List (Float64 × LimitRef)
deriving DecidableEq

/-- The map read `m[k]`: the value of the entry whose key is `==` to `k`, and nil, which is
`none`, when there is no such entry. -/
def PriceIndex.get (m : PriceIndex) (k : Float64) : Option LimitRef :=
  (m.entries.find? fun e => Float64.eq e.1 k).map Prod.snd

/-- The map write `m[k] = v`: the entry whose key is `==` to `k`, if any, is replaced, and
otherwise an entry is added. -/
def PriceIndex.set (m : PriceIndex) (k : Float64) (v : LimitRef) : PriceIndex :=
  { entries := (k, v) :: m.entries.filter fun e => !Float64.eq e.1 k }

/-- The number of entries `len(m)`. -/
def PriceIndex.len (m : PriceIndex) : Nat :=
  m.entries.length

/-- The function `NewLimit`. -/
def NewLimit (s : Store) (price : Float64) : LimitRef × Store :=
  (s.next,
   { s with
     limit := Function.update s.limit s.next { Price := price, Orders := [], TotalVolume := 0 }
     next := s.next + 1 })

/-- The struct `Orderbook`. -/
structure Orderbook where
  Asks : List LimitRef
  Bids : List LimitRef
  AskLimits : PriceIndex
  BidLimits : PriceIndex

/-- The function `NewOrderbook`. -/
def NewOrderbook : Orderbook :=
  { Asks := [], Bids := [], AskLimits := { entries := [] }, BidLimits := { entries := [] } }

/-- The method `Orderbook.add`. -/
def Orderbook.add (ob : Orderbook) (s : Store) (price : Float64) (o : OrderRef) :
    Orderbook × Store :=
  let limit : Option LimitRef :=
    if (s.order o).Bid then ob.BidLimits.get price else ob.AskLimits.get price
  match limit with
  | some _ => (ob, s)
  | none =>
    let r := NewLimit s price
    if (s.order o).Bid then
      ({ ob with Bids := ob.Bids ++ [r.1], BidLimits := ob.BidLimits.set price r.1 }, r.2)
    else
      ({ ob with Asks := ob.Asks ++ [r.1], AskLimits := ob.AskLimits.set price r.1 }, r.2)

/-- The method `Orderbook.PlaceOrder`. -/
def Orderbook.PlaceOrder (ob : Orderbook) (s : Store) (price : Float64) (o : OrderRef) :
    List Match × Orderbook × Store :=
  if (s.order o).Size > 0 then
    let r := ob.add s price o
    ([], r.1, r.2)
  else
    ([], ob, s)

/-- Runs a sequence of `PlaceOrder(price, o)` calls, in order, dropping the returned
matches. -/
def runPlaceOrders : Orderbook × Store → List (Float64 × OrderRef) → Orderbook × Store
  | st, [] => st
  | st, c :: cs => runPlaceOrders (st.1.PlaceOrder st.2 c.1 c.2).2 cs

/-- The entries of a price index that agrees with a slice of limits: one entry for each
limit of the slice, under the price of that limit, the limit appended last coming first. -/
def indexEntries (s : Store) (ls : List LimitRef) : List (Float64 × LimitRef) :=
  ls.reverse.map fun l => ((s.limit l).Price, l)

/-- The entries of a price index have pairwise different keys, none of them NaN. -/
def KeysOk (es : List (Float64 × LimitRef)) : Prop :=
  (es.map Prod.fst).Nodup ∧ Float64.NaN ∉ es.map Prod.fst

/-- The invariant of a book built by `PlaceOrder` calls at prices that are numbers: each
price index holds exactly the limits of its slice, each under the price it carries, under
pairwise different keys that are numbers, and every limit of the book has been
allocated. -/
def Orderbook.Agrees (ob : Orderbook) (s : Store) : Prop :=
  ob.AskLimits.entries = indexEntries s ob.Asks ∧
  ob.BidLimits.entries = indexEntries s ob.Bids ∧
  (∀ l ∈ ob.Asks, l < s.next) ∧
  (∀ l ∈ ob.Bids, l < s.next) ∧
  KeysOk ob.AskLimits.entries ∧
  KeysOk ob.BidLimits.entries

/-- A store holding `arrivalOrders` in which no limit has been allocated yet. -/
def freshStore : Store :=
  { order := arrivalOrders,
    limit := fun _ => { Price := Float64.num 0, Orders := [], TotalVolume := 0 },
    next := 0 }

end F64

/-! ### From exact prices to `float64` prices -/

namespace F64

/-- A limit of the exact-price embedding, its price read as the `float64` number it is. -/
def ofLimit (l : Exchange.Limit) : Limit :=
  { Price := Float64.num l.Price, Orders := l.Orders, TotalVolume := l.TotalVolume }

/-- A store of the exact-price embedding, with every limit price read as a `float64`
number. -/
def ofStore (s : Exchange.Store) : Store :=
  { order := s.order, limit := fun l => ofLimit (s.limit l), next := s.next }

/-- A price index of the exact-price embedding, with every key read as a `float64`
number. -/
def ofIndex (m : Exchange.PriceIndex) : PriceIndex :=
  { entries := m.entries.map fun e => (Float64.num e.1, e.2) }

/-- A book of the exact-price embedding, with every key of its indices read as a `float64`
number. -/
def ofOrderbook (ob : Exchange.Orderbook) : Orderbook :=
  { Asks := ob.Asks, Bids := ob.Bids,
    AskLimits := ofIndex ob.AskLimits, BidLimits := ofIndex ob.BidLimits }

/-- The calls of `TestOrderbook`, after a sell order of size 5 placed at 100. -/
def testCalls : List (Float64 × OrderRef) :=
  [(Float64.num 100, 4), (Float64.num 18000, 2), (Float64.num 19000, 3)]

end F64

/-! # Theorems -/

/-! ## The store -/

@[simp] theorem setOrderLimit_limit (s : Store) (o : OrderRef) (v : Option LimitRef) :
    (s.setOrderLimit o v).limit = s.limit := rfl

@[simp] theorem setOrderLimit_next (s : Store) (o : OrderRef) (v : Option LimitRef) :
    (s.setOrderLimit o v).next = s.next := rfl

@[simp] theorem setOrderLimit_order_self (s : Store) (o : OrderRef) (v : Option LimitRef) :
    (s.setOrderLimit o v).order o = { s.order o with Limit := v } := by
  simp [Store.setOrderLimit]

theorem setOrderLimit_order_ne (s : Store) {o x : OrderRef} (v : Option LimitRef)
    (h : x ≠ o) : (s.setOrderLimit o v).order x = s.order x := by
  simp [Store.setOrderLimit, Function.update_noteq h]

@[simp] theorem setOrderLimit_size (s : Store) (o x : OrderRef) (v : Option LimitRef) :
    ((s.setOrderLimit o v).order x).Size = (s.order x).Size := by
  by_cases h : x = o
  · subst h; simp
  · rw [setOrderLimit_order_ne s v h]

@[simp] theorem setOrderLimit_timestamp (s : Store) (o x : OrderRef) (v : Option LimitRef) :
    ((s.setOrderLimit o v).order x).Timestamp = (s.order x).Timestamp := by
  by_cases h : x = o
  · subst h; simp
  · rw [setOrderLimit_order_ne s v h]

@[simp] theorem setOrders_order (s : Store) (l : LimitRef) (q : List OrderRef) :
    (s.setOrders l q).order = s.order := rfl

@[simp] theorem setOrders_limit_self (s : Store) (l : LimitRef) (q : List OrderRef) :
    (s.setOrders l q).limit l = { s.limit l with Orders := q } := by
  simp [Store.setOrders]

theorem setOrders_limit_ne (s : Store) {l k : LimitRef} (q : List OrderRef) (h : k ≠ l) :
    (s.setOrders l q).limit k = s.limit k := by
  simp [Store.setOrders, Function.update_noteq h]

@[simp] theorem setTotalVolume_order (s : Store) (l : LimitRef) (v : ℚ) :
    (s.setTotalVolume l v).order = s.order := rfl

@[simp] theorem setTotalVolume_limit_self (s : Store) (l : LimitRef) (v : ℚ) :
    (s.setTotalVolume l v).limit l = { s.limit l with TotalVolume := v } := by
  simp [Store.setTotalVolume]

theorem setTotalVolume_limit_ne (s : Store) {l k : LimitRef} (v : ℚ) (h : k ≠ l) :
    (s.setTotalVolume l v).limit k = s.limit k := by
  simp [Store.setTotalVolume, Function.update_noteq h]

/-! ## Queues -/

theorem spliceFirst_eq_erase (o : OrderRef) (q : List OrderRef) :
    spliceFirst o q = q.erase o := by
  induction q with
  | nil => rfl
  | cons x xs ih =>
    by_cases h : x = o
    · simp [spliceFirst, h]
    · simp [spliceFirst, h, ih, List.erase_cons_tail]

theorem notAfter_iff (s : Store) (a b : OrderRef) :
    Orders.notAfter s a b ↔ (s.order a).Timestamp ≤ (s.order b).Timestamp := by
  simp [Orders.notAfter, Orders.Less]

theorem sortSort_congr {s t : Store}
    (h : ∀ o, (t.order o).Timestamp = (s.order o).Timestamp) (q : List OrderRef) :
    sortSort t q = sortSort s q := by
  have e : Orders.Less t = Orders.Less s := by
    funext a b
    simp [Orders.Less, h]
  simp only [sortSort]
  congr 1
  funext a b
  simp [Orders.notAfter, e]

theorem sortSort_perm (s : Store) (q : List OrderRef) : (sortSort s q).Perm q :=
  List.perm_insertionSort _ q

theorem sortSort_sorted (s : Store) (q : List OrderRef) :
    (queueTimestamps s (sortSort s q)).Sorted (· ≤ ·) := by
  haveI : IsTotal OrderRef (Orders.notAfter s) :=
    ⟨fun a b => by simp only [notAfter_iff]; exact le_total _ _⟩
  haveI : IsTrans OrderRef (Orders.notAfter s) :=
    ⟨fun a b c => by simp only [notAfter_iff]; exact le_trans⟩
  have h := List.sorted_insertionSort (Orders.notAfter s) q
  simp only [queueTimestamps, List.Sorted, List.pairwise_map]
  exact List.Pairwise.imp (fun h => (notAfter_iff s _ _).1 h) h

theorem sortSort_fixed (s : Store) (q : List OrderRef)
    (h : (queueTimestamps s q).Sorted (· < ·)) : sortSort s q = q := by
  apply List.Sorted.insertionSort_eq
  simp only [queueTimestamps, List.Sorted, List.pairwise_map] at h
  exact List.Pairwise.imp (fun h => (notAfter_iff s _ _).2 (le_of_lt h)) h

theorem queueTimestamps_erase_sorted (s : Store) (q : List OrderRef) (o : OrderRef)
    (h : (queueTimestamps s q).Sorted (· < ·)) :
    (queueTimestamps s (q.erase o)).Sorted (· < ·) := by
  simp only [queueTimestamps, List.Sorted, List.pairwise_map] at h ⊢
  exact List.Pairwise.sublist (List.erase_sublist o q) h

theorem queueVolume_perm (s : Store) {p q : List OrderRef} (h : p.Perm q) :
    queueVolume s p = queueVolume s q :=
  (h.map _).sum_eq

theorem queueVolume_congr {s t : Store} (h : ∀ o, (t.order o).Size = (s.order o).Size)
    (q : List OrderRef) : queueVolume t q = queueVolume s q := by
  simp [queueVolume, h]

theorem queueVolume_erase (s : Store) {q : List OrderRef} {o : OrderRef} (h : o ∈ q) :
    queueVolume s (q.erase o) = queueVolume s q - (s.order o).Size := by
  have hp := queueVolume_perm s (List.perm_cons_erase h)
  simp only [queueVolume, List.map_cons, List.sum_cons] at hp ⊢
  linarith

/-! ## The two methods of a limit -/

theorem AddOrder_limit_self (s : Store) (l : LimitRef) (o : OrderRef) :
    (Limit.AddOrder s l o).limit l =
      { Price := (s.limit l).Price
        Orders := (s.limit l).Orders ++ [o]
        TotalVolume := (s.limit l).TotalVolume + (s.order o).Size } := by
  simp [Limit.AddOrder]

theorem AddOrder_order_self (s : Store) (l : LimitRef) (o : OrderRef) :
    (Limit.AddOrder s l o).order o = { s.order o with Limit := some l } := by
  simp [Limit.AddOrder]

theorem AddOrder_size (s : Store) (l : LimitRef) (o x : OrderRef) :
    ((Limit.AddOrder s l o).order x).Size = (s.order x).Size := by
  simp [Limit.AddOrder]

theorem DeleteOrder_limit_self (s : Store) (l : LimitRef) (o : OrderRef) :
    (Limit.DeleteOrder s l o).limit l =
      { Price := (s.limit l).Price
        Orders := sortSort s ((s.limit l).Orders.erase o)
        TotalVolume := (s.limit l).TotalVolume - (s.order o).Size } := by
  simp only [Limit.DeleteOrder, spliceFirst_eq_erase, setOrders_limit_self,
    setTotalVolume_limit_self, setOrderLimit_limit, setOrders_order, setTotalVolume_order,
    setOrderLimit_size, Limit.mk.injEq, true_and, and_true]
  exact sortSort_congr (fun x => by simp) _

theorem DeleteOrder_order_self (s : Store) (l : LimitRef) (o : OrderRef) :
    (Limit.DeleteOrder s l o).order o = { s.order o with Limit := none } := by
  simp [Limit.DeleteOrder]

theorem DeleteOrder_size (s : Store) (l : LimitRef) (o x : OrderRef) :
    ((Limit.DeleteOrder s l o).order x).Size = (s.order x).Size := by
  simp [Limit.DeleteOrder]

theorem DeleteOrder_timestamp (s : Store) (l : LimitRef) (o x : OrderRef) :
    ((Limit.DeleteOrder s l o).order x).Timestamp = (s.order x).Timestamp := by
  simp [Limit.DeleteOrder]

/-! ## Claims about a single limit -/

/-- `AddOrder` keeps the total volume equal to the volume of the queue. -/
theorem AddOrder_keeps_volume (s : Store) (l : LimitRef) (o : OrderRef)
    (h : (s.limit l).TotalVolume = queueVolume s (s.limit l).Orders) :
    ((Limit.AddOrder s l o).limit l).TotalVolume =
      queueVolume (Limit.AddOrder s l o) ((Limit.AddOrder s l o).limit l).Orders := by
  rw [queueVolume_congr (AddOrder_size s l o), AddOrder_limit_self]
  simp [queueVolume, h] at *

/-- `DeleteOrder` of an order that is in the queue keeps the total volume equal to the
volume of the queue. -/
theorem DeleteOrder_keeps_volume (s : Store) (l : LimitRef) (o : OrderRef)
    (h : (s.limit l).TotalVolume = queueVolume s (s.limit l).Orders)
    (ho : o ∈ (s.limit l).Orders) :
    ((Limit.DeleteOrder s l o).limit l).TotalVolume =
      queueVolume (Limit.DeleteOrder s l o) ((Limit.DeleteOrder s l o).limit l).Orders := by
  rw [queueVolume_congr (DeleteOrder_size s l o), DeleteOrder_limit_self]
  simp only
  rw [queueVolume_perm s (sortSort_perm s _), queueVolume_erase s ho, h]

/-- C1, evaluated where it fails: on the limit returned by `NewLimit(10000)`, deleting an
order of size 5 that was never added leaves the queue empty, of volume 0, while
`TotalVolume` becomes -5. -/
theorem C1_deleteOrder_of_absent_order_breaks_totalVolume :
    ((runLimitCalls (NewLimit freshStore 10000).1 (NewLimit freshStore 10000).2
        [LimitCall.DeleteOrder 0]).limit (NewLimit freshStore 10000).1).Orders = [] ∧
    queueVolume
      (runLimitCalls (NewLimit freshStore 10000).1 (NewLimit freshStore 10000).2
        [LimitCall.DeleteOrder 0])
      ((runLimitCalls (NewLimit freshStore 10000).1 (NewLimit freshStore 10000).2
        [LimitCall.DeleteOrder 0]).limit (NewLimit freshStore 10000).1).Orders = 0 ∧
    ((runLimitCalls (NewLimit freshStore 10000).1 (NewLimit freshStore 10000).2
        [LimitCall.DeleteOrder 0]).limit (NewLimit freshStore 10000).1).TotalVolume = -5 := by
  refine ⟨by decide, ?_, ?_⟩
  · have e : ((runLimitCalls (NewLimit freshStore 10000).1 (NewLimit freshStore 10000).2
        [LimitCall.DeleteOrder 0]).limit (NewLimit freshStore 10000).1).Orders = [] := by decide
    rw [e]; rfl
  · simp only [runLimitCalls, DeleteOrder_limit_self]
    norm_num [NewLimit, freshStore, arrivalOrders]

/-- C2: after `l.AddOrder(o)` the queue is the previous queue with `o` appended as its last
element, `o.Limit` refers to `l`, `l.TotalVolume` is the previous total plus `o.Size`, and
`l.Price` is unchanged. -/
theorem C2_addOrder_appends (s : Store) (l : LimitRef) (o : OrderRef) :
    ((Limit.AddOrder s l o).limit l).Orders = (s.limit l).Orders ++ [o] ∧
    ((Limit.AddOrder s l o).order o).Limit = some l ∧
    ((Limit.AddOrder s l o).limit l).TotalVolume = (s.limit l).TotalVolume + (s.order o).Size ∧
    ((Limit.AddOrder s l o).limit l).Price = (s.limit l).Price := by
  simp [AddOrder_limit_self, AddOrder_order_self]

/-- C3: when `o` occurs exactly once in `l.Orders`, after `l.DeleteOrder(o)` the order `o`
no longer occurs in the queue, every other order of the queue still occurs in it, the queue
is one element shorter, `l.TotalVolume` is the previous total minus `o.Size`, and `o.Limit`
is nil. -/
theorem C3_deleteOrder_removes (s : Store) (l : LimitRef) (o : OrderRef)
    (h : (s.limit l).Orders.count o = 1) :
    o ∉ ((Limit.DeleteOrder s l o).limit l).Orders ∧
    (∀ x, x ≠ o → x ∈ (s.limit l).Orders → x ∈ ((Limit.DeleteOrder s l o).limit l).Orders) ∧
    ((Limit.DeleteOrder s l o).limit l).Orders.length + 1 = (s.limit l).Orders.length ∧
    ((Limit.DeleteOrder s l o).limit l).TotalVolume =
      (s.limit l).TotalVolume - (s.order o).Size ∧
    ((Limit.DeleteOrder s l o).order o).Limit = none := by
  have hm : o ∈ (s.limit l).Orders := List.count_pos_iff.1 (by omega)
  have hp := sortSort_perm s ((s.limit l).Orders.erase o)
  rw [DeleteOrder_limit_self, DeleteOrder_order_self]
  refine ⟨?_, ?_, ?_, rfl, rfl⟩
  · intro hin
    have h1 : o ∈ (s.limit l).Orders.erase o := hp.mem_iff.1 hin
    have h2 : 0 < ((s.limit l).Orders.erase o).count o := List.count_pos_iff.2 h1
    rw [List.count_erase_self] at h2
    omega
  · intro x hx hin
    exact hp.mem_iff.2 ((List.mem_erase_of_ne hx).2 hin)
  · simp only [hp.length_eq, List.length_erase_of_mem hm]
    have : 0 < (s.limit l).Orders.length := List.length_pos_of_mem hm
    omega

/-- C3 at the state of `TestLimit`: deleting order 1 from the queue 0, 1, 2. -/
theorem C3_deleteOrder_removes_witness :
    (testLimitStore.limit 0).Orders.count 1 = 1 ∧
    (1 ∉ ((Limit.DeleteOrder testLimitStore 0 1).limit 0).Orders ∧
     (∀ x, x ≠ 1 → x ∈ (testLimitStore.limit 0).Orders →
        x ∈ ((Limit.DeleteOrder testLimitStore 0 1).limit 0).Orders) ∧
     ((Limit.DeleteOrder testLimitStore 0 1).limit 0).Orders.length + 1 =
        (testLimitStore.limit 0).Orders.length ∧
     ((Limit.DeleteOrder testLimitStore 0 1).limit 0).TotalVolume =
        (testLimitStore.limit 0).TotalVolume - (testLimitStore.order 1).Size ∧
     ((Limit.DeleteOrder testLimitStore 0 1).order 1).Limit = none) :=
  ⟨by decide, C3_deleteOrder_removes testLimitStore 0 1 (by decide)⟩

/-- C4 as stated fails: in `skewedStore` the queue is 0, 1, 2 with timestamps 3, 2, 1;
`DeleteOrder` of order 0 leaves the queue 2, 1, not the previous queue with order 0 spliced
out, which is 1, 2. -/
theorem C4_deleteOrder_keeps_relative_order_counterexample :
    (skewedStore.limit 0).Orders = [0, 1, 2] ∧
    (0 : OrderRef) ∈ (skewedStore.limit 0).Orders ∧
    ((Limit.DeleteOrder skewedStore 0 0).limit 0).Orders = [2, 1] ∧
    ¬ ((Limit.DeleteOrder skewedStore 0 0).limit 0).Orders =
        (skewedStore.limit 0).Orders.erase 0 := by
  decide

/-- C4, amended: for every order `o`, in particular one in `l.Orders`, after
`l.DeleteOrder(o)` the queue is the previous queue with the first occurrence of `o` spliced
out and then sorted by `Timestamp`: it is a permutation of the spliced queue, its timestamps
are non-decreasing, and when the timestamps of the previous queue are strictly increasing it
is exactly the spliced queue. -/
theorem C4_deleteOrder_splices_then_sorts (s : Store) (l : LimitRef) (o : OrderRef) :
    ((Limit.DeleteOrder s l o).limit l).Orders.Perm ((s.limit l).Orders.erase o) ∧
    (queueTimestamps (Limit.DeleteOrder s l o)
      ((Limit.DeleteOrder s l o).limit l).Orders).Sorted (· ≤ ·) ∧
    ((queueTimestamps s (s.limit l).Orders).Sorted (· < ·) →
      ((Limit.DeleteOrder s l o).limit l).Orders = (s.limit l).Orders.erase o) := by
  have ht : queueTimestamps (Limit.DeleteOrder s l o) = queueTimestamps s := by
    funext q
    simp [queueTimestamps, DeleteOrder_timestamp]
  rw [ht, DeleteOrder_limit_self]
  exact ⟨sortSort_perm s _, sortSort_sorted s _,
    fun hs => sortSort_fixed s _ (queueTimestamps_erase_sorted s _ o hs)⟩

/-- C4, amended, at the state of `TestLimit`: deleting order 1 from the queue 0, 1, 2, whose
timestamps are 1, 2, 3. -/
theorem C4_deleteOrder_splices_then_sorts_witness :
    (1 : OrderRef) ∈ (testLimitStore.limit 0).Orders ∧
    (queueTimestamps testLimitStore (testLimitStore.limit 0).Orders).Sorted (· < ·) ∧
    ((Limit.DeleteOrder testLimitStore 0 1).limit 0).Orders.Perm
      ((testLimitStore.limit 0).Orders.erase 1) ∧
    (queueTimestamps (Limit.DeleteOrder testLimitStore 0 1)
      ((Limit.DeleteOrder testLimitStore 0 1).limit 0).Orders).Sorted (· ≤ ·) ∧
    ((Limit.DeleteOrder testLimitStore 0 1).limit 0).Orders =
      (testLimitStore.limit 0).Orders.erase 1 :=
  ⟨by decide, by decide,
    (C4_deleteOrder_splices_then_sorts testLimitStore 0 1).1,
    (C4_deleteOrder_splices_then_sorts testLimitStore 0 1).2.1,
    (C4_deleteOrder_splices_then_sorts testLimitStore 0 1).2.2 (by decide)⟩

/-- C5 as stated fails: in `skewedStore` order 3 is not in the queue 0, 1, 2 of the limit,
yet `DeleteOrder` of order 3 changes the queue to 2, 1, 0. -/
theorem C5_deleteOrder_of_absent_order_counterexample :
    (3 : OrderRef) ∉ (skewedStore.limit 0).Orders ∧
    ((Limit.DeleteOrder skewedStore 0 3).limit 0).Orders = [2, 1, 0] ∧
    ¬ (((Limit.DeleteOrder skewedStore 0 3).limit 0).Orders = (skewedStore.limit 0).Orders ∧
       ((Limit.DeleteOrder skewedStore 0 3).limit 0).TotalVolume =
         (skewedStore.limit 0).TotalVolume ∧
       ((Limit.DeleteOrder skewedStore 0 3).order 3).Limit = (skewedStore.order 3).Limit) :=
  ⟨by decide, by decide, fun h => absurd h.1 (by decide)⟩

/-- C5, amended: for `o` not in `l.Orders`, `l.DeleteOrder(o)` removes no order from the
queue and only sorts it by `Timestamp`: the queue afterwards is a permutation of the
previous queue with non-decreasing timestamps, and is the previous queue itself when its
timestamps are strictly increasing; `l.Price` is unchanged; and when `o.Limit` is nil it
stays nil. -/
theorem C5_deleteOrder_of_absent_order (s : Store) (l : LimitRef) (o : OrderRef)
    (h : o ∉ (s.limit l).Orders) :
    ((Limit.DeleteOrder s l o).limit l).Orders.Perm (s.limit l).Orders ∧
    (queueTimestamps (Limit.DeleteOrder s l o)
      ((Limit.DeleteOrder s l o).limit l).Orders).Sorted (· ≤ ·) ∧
    ((queueTimestamps s (s.limit l).Orders).Sorted (· < ·) →
      ((Limit.DeleteOrder s l o).limit l).Orders = (s.limit l).Orders) ∧
    ((Limit.DeleteOrder s l o).limit l).Price = (s.limit l).Price ∧
    ((s.order o).Limit = none →
      ((Limit.DeleteOrder s l o).order o).Limit = (s.order o).Limit) := by
  have ht : queueTimestamps (Limit.DeleteOrder s l o) = queueTimestamps s := by
    funext q
    simp [queueTimestamps, DeleteOrder_timestamp]
  rw [ht, DeleteOrder_limit_self, DeleteOrder_order_self, List.erase_of_not_mem h]
  exact ⟨sortSort_perm s _, sortSort_sorted s _, fun hs => sortSort_fixed s _ hs, rfl,
    fun hn => hn.symm⟩

/-- C5, amended, at the state of `TestLimit`: deleting order 3, which is not in the queue
0, 1, 2 and is attached to no limit. -/
theorem C5_deleteOrder_of_absent_order_witness :
    (3 : OrderRef) ∉ (testLimitStore.limit 0).Orders ∧
    (queueTimestamps testLimitStore (testLimitStore.limit 0).Orders).Sorted (· < ·) ∧
    (testLimitStore.order 3).Limit = none ∧
    ((Limit.DeleteOrder testLimitStore 0 3).limit 0).Orders.Perm
      (testLimitStore.limit 0).Orders ∧
    (queueTimestamps (Limit.DeleteOrder testLimitStore 0 3)
      ((Limit.DeleteOrder testLimitStore 0 3).limit 0).Orders).Sorted (· ≤ ·) ∧
    ((Limit.DeleteOrder testLimitStore 0 3).limit 0).Orders =
      (testLimitStore.limit 0).Orders ∧
    ((Limit.DeleteOrder testLimitStore 0 3).limit 0).Price = (testLimitStore.limit 0).Price ∧
    ((Limit.DeleteOrder testLimitStore 0 3).order 3).Limit = (testLimitStore.order 3).Limit :=
  ⟨by decide, by decide, by decide,
    (C5_deleteOrder_of_absent_order testLimitStore 0 3 (by decide)).1,
    (C5_deleteOrder_of_absent_order testLimitStore 0 3 (by decide)).2.1,
    (C5_deleteOrder_of_absent_order testLimitStore 0 3 (by decide)).2.2.1 (by decide),
    (C5_deleteOrder_of_absent_order testLimitStore 0 3 (by decide)).2.2.2.1,
    (C5_deleteOrder_of_absent_order testLimitStore 0 3 (by decide)).2.2.2.2 (by decide)⟩

/-! ## The order book -/

theorem indexEntries_append (s : Store) (ls : List LimitRef) (l : LimitRef) :
    indexEntries s (ls ++ [l]) = ⟨(s.limit l).Price, l⟩ :: indexEntries s ls := by
  simp [indexEntries]

theorem indexEntries_congr {s t : Store} {ls : List LimitRef}
    (h : ∀ l ∈ ls, t.limit l = s.limit l) : indexEntries t ls = indexEntries s ls := by
  simp only [indexEntries]
  apply List.map_congr_left
  intro l hl
  rw [h l (List.mem_reverse.1 hl)]

theorem NewLimit_limit_old (s : Store) (price : ℚ) {l : LimitRef} (h : l < s.next) :
    (NewLimit s price).2.limit l = s.limit l := by
  simp [NewLimit, Function.update_noteq (Nat.ne_of_lt h)]

theorem NewLimit_limit_new (s : Store) (price : ℚ) :
    (NewLimit s price).2.limit (NewLimit s price).1 =
      { Price := price, Orders := [], TotalVolume := 0 } := by
  simp [NewLimit]

theorem add_agrees (ob : Orderbook) (s : Store) (price : ℚ) (o : OrderRef)
    (h : ob.Agrees s) : (ob.add s price o).1.Agrees (ob.add s price o).2 := by
  obtain ⟨ha, hb, hA, hB⟩ := h
  have hold : ∀ ls : List LimitRef, (∀ l ∈ ls, l < s.next) →
      indexEntries (NewLimit s price).2 ls = indexEntries s ls := fun ls hls =>
    indexEntries_congr fun l hl => NewLimit_limit_old s price (hls l hl)
  have hnext : ∀ ls : List LimitRef, (∀ l ∈ ls, l < s.next) →
      ∀ l ∈ ls, l < (NewLimit s price).2.next := fun ls hls l hl =>
    Nat.lt_succ_of_lt (hls l hl)
  have hnew : (NewLimit s price).1 < (NewLimit s price).2.next := Nat.lt_succ_self _
  unfold Orderbook.add
  by_cases hbid : (s.order o).Bid = true
  · simp only [hbid, if_true]
    cases hl : ob.BidLimits.lookup price with
    | some k => exact ⟨ha, hb, hA, hB⟩
    | none =>
      have hk : price ∉ ob.BidLimits := AList.lookup_eq_none.1 hl
      refine ⟨?_, ?_, hnext _ hA, ?_⟩
      · simpa [hold _ hA] using ha
      · simp only [AList.insert_entries_of_neg hk, indexEntries_append, NewLimit_limit_new,
          hold _ hB, hb]
      · intro l hl
        rcases List.mem_append.1 hl with h1 | h1
        · exact hnext _ hB l h1
        · rw [List.mem_singleton.1 h1]; exact hnew
  · have hask : (s.order o).Bid = false := by simpa using hbid
    simp only [hask, Bool.false_eq_true, if_false]
    cases hl : ob.AskLimits.lookup price with
    | some k => exact ⟨ha, hb, hA, hB⟩
    | none =>
      have hk : price ∉ ob.AskLimits := AList.lookup_eq_none.1 hl
      refine ⟨?_, ?_, ?_, hnext _ hB⟩
      · simp only [AList.insert_entries_of_neg hk, indexEntries_append, NewLimit_limit_new,
          hold _ hA, ha]
      · simpa [hold _ hB] using hb
      · intro l hl
        rcases List.mem_append.1 hl with h1 | h1
        · exact hnext _ hA l h1
        · rw [List.mem_singleton.1 h1]; exact hnew

theorem PlaceOrder_agrees (ob : Orderbook) (s : Store) (price : ℚ) (o : OrderRef)
    (h : ob.Agrees s) :
    (ob.PlaceOrder s price o).2.1.Agrees (ob.PlaceOrder s price o).2.2 := by
  unfold Orderbook.PlaceOrder
  split
  · exact add_agrees ob s price o h
  · exact h

theorem NewOrderbook_agrees (s : Store) : NewOrderbook.Agrees s := by
  simp [Orderbook.Agrees, NewOrderbook, indexEntries]

theorem runPlaceOrders_agrees (calls : List (ℚ × OrderRef)) (st : Orderbook × Store)
    (h : st.1.Agrees st.2) :
    (runPlaceOrders st calls).1.Agrees (runPlaceOrders st calls).2 := by
  induction calls generalizing st with
  | nil => exact h
  | cons c cs ih => exact ih _ (PlaceOrder_agrees st.1 st.2 c.1 c.2 h)

theorem levelPrices_nodup_of_entries (s : Store) (m : PriceIndex) (ls : List LimitRef)
    (h : m.entries = indexEntries s ls) : (levelPrices s ls).Nodup := by
  have hk : m.keys.Nodup := m.keys_nodup
  have e : m.keys = (levelPrices s ls).reverse := by
    simp [AList.keys, List.keys, h, indexEntries, levelPrices, List.map_reverse]
  rw [e] at hk
  exact List.nodup_reverse.1 hk

theorem mem_iff_lookup_of_entries (s : Store) (m : PriceIndex) (ls : List LimitRef)
    (h : m.entries = indexEntries s ls) (l : LimitRef) :
    l ∈ ls ↔ m.lookup (s.limit l).Price = some l := by
  have e : m.lookup (s.limit l).Price = some l ↔
      (⟨(s.limit l).Price, l⟩ : Σ _ : ℚ, LimitRef) ∈ m.entries := AList.mem_lookup_iff
  rw [e, h]
  simp only [indexEntries, List.mem_map, List.mem_reverse]
  constructor
  · intro hl
    exact ⟨l, hl, rfl⟩
  · rintro ⟨k, hk, hkl⟩
    have : k = l := by injection hkl
    exact this ▸ hk

theorem length_eq_of_entries (s : Store) (m : PriceIndex) (ls : List LimitRef)
    (h : m.entries = indexEntries s ls) : ls.length = m.keys.length := by
  simp [AList.keys, List.keys, h, indexEntries]

theorem price_of_lookup_of_entries (s : Store) (m : PriceIndex) (ls : List LimitRef)
    (h : m.entries = indexEntries s ls) (k : ℚ) (l : LimitRef)
    (hl : m.lookup k = some l) : (s.limit l).Price = k := by
  have e : (⟨k, l⟩ : Σ _ : ℚ, LimitRef) ∈ m.entries := AList.mem_lookup_iff.1 hl
  rw [h] at e
  simp only [indexEntries, List.mem_map, List.mem_reverse] at e
  obtain ⟨j, _, hj⟩ := e
  injection hj with h1 h2
  rw [← h2, h1]

/-- C6, evaluated where it fails: on the empty book, `PlaceOrder(50, o)` for the sell order
`o` of size 5 returns no matches and creates the ask level at price 50, indexed under 50,
but that level has an empty queue and total volume 0, and `o.Limit` is still nil. -/
theorem C6_placeOrder_leaves_order_out_of_its_level :
    (arrivalOrders 4).Size = 5 ∧ (arrivalOrders 4).Bid = false ∧ NewOrderbook.Bids = [] ∧
    (NewOrderbook.PlaceOrder freshStore 50 4).1 = [] ∧
    (NewOrderbook.PlaceOrder freshStore 50 4).2.1.Asks = [0] ∧
    (NewOrderbook.PlaceOrder freshStore 50 4).2.1.AskLimits.lookup 50 = some 0 ∧
    ((NewOrderbook.PlaceOrder freshStore 50 4).2.2.limit 0).Price = 50 ∧
    ((NewOrderbook.PlaceOrder freshStore 50 4).2.2.limit 0).Orders = [] ∧
    ((NewOrderbook.PlaceOrder freshStore 50 4).2.2.limit 0).TotalVolume = 0 ∧
    ((NewOrderbook.PlaceOrder freshStore 50 4).2.2.order 4).Limit = none := by
  decide

/-- C7, evaluated where it fails: after the two calls of `TestOrderbook` the bid levels are,
in slice order, at prices 18000 and 19000, which is not descending. -/
theorem C7_bids_are_kept_in_arrival_order :
    levelPrices testOrderbook.2 testOrderbook.1.Bids = [18000, 19000] ∧
    ¬ (levelPrices testOrderbook.2 testOrderbook.1.Bids).Sorted (· > ·) := by
  decide

/-- C8: in every book reached from `NewOrderbook()` by a sequence of `PlaceOrder` calls, the
prices of the levels in `Asks` are pairwise distinct, and so are those of the levels in
`Bids`. -/
theorem C8_level_prices_are_distinct (s : Store) (calls : List (ℚ × OrderRef)) :
    (levelPrices (runPlaceOrders (NewOrderbook, s) calls).2
      (runPlaceOrders (NewOrderbook, s) calls).1.Asks).Nodup ∧
    (levelPrices (runPlaceOrders (NewOrderbook, s) calls).2
      (runPlaceOrders (NewOrderbook, s) calls).1.Bids).Nodup := by
  obtain ⟨ha, hb, _, _⟩ := runPlaceOrders_agrees calls (NewOrderbook, s) (NewOrderbook_agrees s)
  exact ⟨levelPrices_nodup_of_entries _ _ _ ha, levelPrices_nodup_of_entries _ _ _ hb⟩

/-- C9, evaluated where it fails: after `PlaceOrder(18000, o)` on the empty book, for the buy
order `o` of size 10, the level at address 0 is in `Bids` and is the value of `BidLimits` at
18000, and its queue is empty. -/
theorem C9_placeOrder_creates_an_empty_level :
    (NewOrderbook.PlaceOrder freshStore 18000 2).2.1.Bids = [0] ∧
    (NewOrderbook.PlaceOrder freshStore 18000 2).2.1.BidLimits.lookup 18000 = some 0 ∧
    ((NewOrderbook.PlaceOrder freshStore 18000 2).2.2.limit 0).Orders = [] := by
  decide

/-- With prices read as exact numbers: in every book reached from `NewOrderbook()` by a
sequence of `PlaceOrder` calls, a level is in `Asks` if and only if it is the value of
`AskLimits` at its own price, `Asks` and `AskLimits` have the same number of entries, every
key of `AskLimits` maps to a level whose price is that key, and the same holds of `Bids` and
`BidLimits`. -/
theorem slices_and_indices_agree_at_exact_prices (s : Store) (calls : List (ℚ × OrderRef)) :
    ((∀ l, l ∈ (runPlaceOrders (NewOrderbook, s) calls).1.Asks ↔
        (runPlaceOrders (NewOrderbook, s) calls).1.AskLimits.lookup
          ((runPlaceOrders (NewOrderbook, s) calls).2.limit l).Price = some l) ∧
     (runPlaceOrders (NewOrderbook, s) calls).1.Asks.length =
        (runPlaceOrders (NewOrderbook, s) calls).1.AskLimits.keys.length ∧
     (∀ k l, (runPlaceOrders (NewOrderbook, s) calls).1.AskLimits.lookup k = some l →
        ((runPlaceOrders (NewOrderbook, s) calls).2.limit l).Price = k)) ∧
    ((∀ l, l ∈ (runPlaceOrders (NewOrderbook, s) calls).1.Bids ↔
        (runPlaceOrders (NewOrderbook, s) calls).1.BidLimits.lookup
          ((runPlaceOrders (NewOrderbook, s) calls).2.limit l).Price = some l) ∧
     (runPlaceOrders (NewOrderbook, s) calls).1.Bids.length =
        (runPlaceOrders (NewOrderbook, s) calls).1.BidLimits.keys.length ∧
     (∀ k l, (runPlaceOrders (NewOrderbook, s) calls).1.BidLimits.lookup k = some l →
        ((runPlaceOrders (NewOrderbook, s) calls).2.limit l).Price = k)) := by
  obtain ⟨ha, hb, _, _⟩ := runPlaceOrders_agrees calls (NewOrderbook, s) (NewOrderbook_agrees s)
  exact ⟨⟨mem_iff_lookup_of_entries _ _ _ ha, length_eq_of_entries _ _ _ ha,
      price_of_lookup_of_entries _ _ _ ha⟩,
    ⟨mem_iff_lookup_of_entries _ _ _ hb, length_eq_of_entries _ _ _ hb,
      price_of_lookup_of_entries _ _ _ hb⟩⟩

/-! ## Matching -/

/-- C11, evaluated where it fails: on the book with asks 10@100 and 5@101, `PlaceOrder(101, o)`
for the buy order `o` of size 12 returns no matches, not the matches (100, 10) and (101, 2),
and leaves the ask levels with their volumes 10 and 5. -/
theorem C11_crossing_buy_returns_no_matches :
    levelPrices restingAsksStore restingAsksBook.Asks = [100, 101] ∧
    (restingAsksStore.limit 0).Orders = [0] ∧ (restingAsksStore.order 0).Size = 10 ∧
    (restingAsksStore.limit 1).Orders = [1] ∧ (restingAsksStore.order 1).Size = 5 ∧
    (restingAsksStore.order 2).Bid = true ∧ (restingAsksStore.order 2).Size = 12 ∧
    (restingAsksBook.PlaceOrder restingAsksStore 101 2).1 = [] ∧
    (restingAsksBook.PlaceOrder restingAsksStore 101 2).1 ≠
      [{ Ask := some 0, Bid := some 2, SizeFilled := 10, Price := 100 },
       { Ask := some 1, Bid := some 2, SizeFilled := 2, Price := 101 }] ∧
    ((restingAsksBook.PlaceOrder restingAsksStore 101 2).2.2.limit 0).TotalVolume = 10 ∧
    ((restingAsksBook.PlaceOrder restingAsksStore 101 2).2.2.limit 1).TotalVolume = 5 := by
  decide

/-- C12, evaluated where it fails: from the empty book, placing the sell order of size 5 at
100 and then the buy order of size 10 at 101 leaves an ask level at 100 and a bid level at
101, so both sides have levels and the highest bid is not below the lowest ask. -/
theorem C12_book_is_left_crossed :
    0 < (freshStore.order 4).Size ∧ 0 < (freshStore.order 2).Size ∧
    levelPrices (runPlaceOrders (NewOrderbook, freshStore) [(100, 4), (101, 2)]).2
      (runPlaceOrders (NewOrderbook, freshStore) [(100, 4), (101, 2)]).1.Asks = [100] ∧
    levelPrices (runPlaceOrders (NewOrderbook, freshStore) [(100, 4), (101, 2)]).2
      (runPlaceOrders (NewOrderbook, freshStore) [(100, 4), (101, 2)]).1.Bids = [101] ∧
    ¬ ((runPlaceOrders (NewOrderbook, freshStore) [(100, 4), (101, 2)]).1.Asks = [] ∨
       (runPlaceOrders (NewOrderbook, freshStore) [(100, 4), (101, 2)]).1.Bids = [] ∨
       ∀ b ∈ levelPrices (runPlaceOrders (NewOrderbook, freshStore) [(100, 4), (101, 2)]).2
              (runPlaceOrders (NewOrderbook, freshStore) [(100, 4), (101, 2)]).1.Bids,
         ∀ a ∈ levelPrices (runPlaceOrders (NewOrderbook, freshStore) [(100, 4), (101, 2)]).2
                (runPlaceOrders (NewOrderbook, freshStore) [(100, 4), (101, 2)]).1.Asks,
           b < a) := by
  decide

/-- C13, evaluated where it fails: on the book whose ask level at 100 holds the sell order 0
of size 10 and, behind it, the sell order 1 of size 5, `PlaceOrder(100, o)` for the buy order
`o` of size 15 returns no matches, so none against order 0 and none against order 1. -/
theorem C13_no_match_against_either_resting_order :
    (sharedLevelStore.limit 0).Orders = [0, 1] ∧ (sharedLevelStore.limit 0).Price = 100 ∧
    (sharedLevelStore.order 0).Size = 10 ∧ (sharedLevelStore.order 1).Size = 5 ∧
    (sharedLevelStore.order 3).Bid = true ∧ (sharedLevelStore.order 3).Size = 15 ∧
    (sharedLevelBook.PlaceOrder sharedLevelStore 100 3).1 = [] ∧
    (¬ ∃ m ∈ (sharedLevelBook.PlaceOrder sharedLevelStore 100 3).1, m.Ask = some 0) ∧
    (¬ ∃ m ∈ (sharedLevelBook.PlaceOrder sharedLevelStore 100 3).1, m.Ask = some 1) := by
  decide

/-! ## Orders that are not placed, and the frame of `PlaceOrder` -/

theorem AddOrder_timestamp (s : Store) (l : LimitRef) (o x : OrderRef) :
    ((Limit.AddOrder s l o).order x).Timestamp = (s.order x).Timestamp := by
  simp [Limit.AddOrder]

theorem PlaceOrder_of_size_pos (ob : Orderbook) (s : Store) (price : ℚ) (o : OrderRef)
    (h : 0 < (s.order o).Size) :
    ob.PlaceOrder s price o = ([], (ob.add s price o).1, (ob.add s price o).2) := by
  simp [Orderbook.PlaceOrder, h]

theorem add_bid_of_some (ob : Orderbook) (s : Store) (price : ℚ) (o : OrderRef)
    (hb : (s.order o).Bid = true) (h : (ob.BidLimits.lookup price).isSome) :
    ob.add s price o = (ob, s) := by
  obtain ⟨k, hk⟩ := Option.isSome_iff_exists.1 h
  simp [Orderbook.add, hb, hk]

theorem add_bid_of_none (ob : Orderbook) (s : Store) (price : ℚ) (o : OrderRef)
    (hb : (s.order o).Bid = true) (h : ob.BidLimits.lookup price = none) :
    ob.add s price o =
      ({ ob with Bids := ob.Bids ++ [s.next], BidLimits := ob.BidLimits.insert price s.next },
       (NewLimit s price).2) := by
  simp [Orderbook.add, hb, h, NewLimit]

theorem add_ask_of_some (ob : Orderbook) (s : Store) (price : ℚ) (o : OrderRef)
    (hb : (s.order o).Bid = false) (h : (ob.AskLimits.lookup price).isSome) :
    ob.add s price o = (ob, s) := by
  obtain ⟨k, hk⟩ := Option.isSome_iff_exists.1 h
  simp [Orderbook.add, hb, hk]

theorem add_ask_of_none (ob : Orderbook) (s : Store) (price : ℚ) (o : OrderRef)
    (hb : (s.order o).Bid = false) (h : ob.AskLimits.lookup price = none) :
    ob.add s price o =
      ({ ob with Asks := ob.Asks ++ [s.next], AskLimits := ob.AskLimits.insert price s.next },
       (NewLimit s price).2) := by
  simp [Orderbook.add, hb, h, NewLimit]

theorem add_order (ob : Orderbook) (s : Store) (price : ℚ) (o : OrderRef) :
    (ob.add s price o).2.order = s.order := by
  cases hb : (s.order o).Bid
  · cases hl : ob.AskLimits.lookup price with
    | some k => rw [add_ask_of_some ob s price o hb (by simp [hl])]
    | none => rw [add_ask_of_none ob s price o hb hl]; rfl
  · cases hl : ob.BidLimits.lookup price with
    | some k => rw [add_bid_of_some ob s price o hb (by simp [hl])]
    | none => rw [add_bid_of_none ob s price o hb hl]; rfl

theorem add_limit_old (ob : Orderbook) (s : Store) (price : ℚ) (o : OrderRef) {l : LimitRef}
    (h : l < s.next) : (ob.add s price o).2.limit l = s.limit l := by
  cases hb : (s.order o).Bid
  · cases hl : ob.AskLimits.lookup price with
    | some k => rw [add_ask_of_some ob s price o hb (by simp [hl])]
    | none => rw [add_ask_of_none ob s price o hb hl]; exact NewLimit_limit_old s price h
  · cases hl : ob.BidLimits.lookup price with
    | some k => rw [add_bid_of_some ob s price o hb (by simp [hl])]
    | none => rw [add_bid_of_none ob s price o hb hl]; exact NewLimit_limit_old s price h

/-- C14: for an order `o` with `Size <= 0`, `PlaceOrder(price, o)` returns no matches and
leaves `Asks`, `Bids`, `AskLimits`, `BidLimits`, the order `o` and every limit unchanged. -/
theorem C14_nonpositive_size_has_no_effect (ob : Orderbook) (s : Store) (price : ℚ)
    (o : OrderRef) (h : (s.order o).Size ≤ 0) :
    (ob.PlaceOrder s price o).1 = [] ∧
    (ob.PlaceOrder s price o).2.1.Asks = ob.Asks ∧
    (ob.PlaceOrder s price o).2.1.Bids = ob.Bids ∧
    (ob.PlaceOrder s price o).2.1.AskLimits = ob.AskLimits ∧
    (ob.PlaceOrder s price o).2.1.BidLimits = ob.BidLimits ∧
    (ob.PlaceOrder s price o).2.2.order o = s.order o ∧
    (ob.PlaceOrder s price o).2.2.limit = s.limit := by
  have e : ob.PlaceOrder s price o = ([], ob, s) := by
    simp [Orderbook.PlaceOrder, not_lt.2 h]
  simp [e]

/-- C14 at scenario 4 of the specification: the buy order of size 0 placed at 100 on the
book with asks 10@100 and 5@101. -/
theorem C14_nonpositive_size_has_no_effect_witness :
    (restingAsksStore.order 4).Size ≤ 0 ∧
    ((restingAsksBook.PlaceOrder restingAsksStore 100 4).1 = [] ∧
     (restingAsksBook.PlaceOrder restingAsksStore 100 4).2.1.Asks = restingAsksBook.Asks ∧
     (restingAsksBook.PlaceOrder restingAsksStore 100 4).2.1.Bids = restingAsksBook.Bids ∧
     (restingAsksBook.PlaceOrder restingAsksStore 100 4).2.1.AskLimits =
        restingAsksBook.AskLimits ∧
     (restingAsksBook.PlaceOrder restingAsksStore 100 4).2.1.BidLimits =
        restingAsksBook.BidLimits ∧
     (restingAsksBook.PlaceOrder restingAsksStore 100 4).2.2.order 4 =
        restingAsksStore.order 4 ∧
     (restingAsksBook.PlaceOrder restingAsksStore 100 4).2.2.limit = restingAsksStore.limit) :=
  ⟨by decide, C14_nonpositive_size_has_no_effect restingAsksBook restingAsksStore 100 4
    (by decide)⟩

/-- C15 as stated fails: on the empty book, `PlaceOrder(-1, o)` for the buy order `o` of
size 10 puts a level at price -1 in `Bids` and in `BidLimits`. -/
theorem C15_nonpositive_price_is_placed_counterexample :
    (-1 : ℚ) ≤ 0 ∧ 0 < (freshStore.order 2).Size ∧
    (NewOrderbook.PlaceOrder freshStore (-1) 2).2.1.Bids = [0] ∧
    (NewOrderbook.PlaceOrder freshStore (-1) 2).2.1.BidLimits.lookup (-1) = some 0 ∧
    ((NewOrderbook.PlaceOrder freshStore (-1) 2).2.2.limit 0).Price = -1 ∧
    ¬ ((NewOrderbook.PlaceOrder freshStore (-1) 2).2.1.Asks = NewOrderbook.Asks ∧
       (NewOrderbook.PlaceOrder freshStore (-1) 2).2.1.Bids = NewOrderbook.Bids ∧
       (NewOrderbook.PlaceOrder freshStore (-1) 2).2.1.AskLimits = NewOrderbook.AskLimits ∧
       (NewOrderbook.PlaceOrder freshStore (-1) 2).2.1.BidLimits = NewOrderbook.BidLimits) :=
  ⟨by decide, by decide, by decide, by decide, by decide, fun h => absurd h.2.1 (by decide)⟩

/-- C15, amended: the price is not validated.  For a price `<= 0` and an order `o` with
`Size > 0`, `PlaceOrder(price, o)` leaves `Asks`, `Bids`, `AskLimits` and `BidLimits`
unchanged if and only if the index of the side of `o` already has a level at that price.
Otherwise one new level whose `Price` is that price is appended at the end of the slice of
the side of `o` and becomes the value of the index of that side at the price, that index
being unchanged at every other price, and the slice and the index of the opposite side are
unchanged. -/
theorem C15_nonpositive_price_is_placed (ob : Orderbook) (s : Store) (price : ℚ)
    (o : OrderRef) (_hp : price ≤ 0) (hs : 0 < (s.order o).Size) :
    (((ob.PlaceOrder s price o).2.1.Asks = ob.Asks ∧
      (ob.PlaceOrder s price o).2.1.Bids = ob.Bids ∧
      (ob.PlaceOrder s price o).2.1.AskLimits = ob.AskLimits ∧
      (ob.PlaceOrder s price o).2.1.BidLimits = ob.BidLimits) ↔
     (if (s.order o).Bid then ob.BidLimits.lookup price
       else ob.AskLimits.lookup price).isSome = true) ∧
    ((s.order o).Bid = true → ob.BidLimits.lookup price = none →
      (ob.PlaceOrder s price o).2.1.Asks = ob.Asks ∧
      (ob.PlaceOrder s price o).2.1.AskLimits = ob.AskLimits ∧
      ∃ l, (ob.PlaceOrder s price o).2.1.Bids = ob.Bids ++ [l] ∧
        ((ob.PlaceOrder s price o).2.2.limit l).Price = price ∧
        (ob.PlaceOrder s price o).2.1.BidLimits.lookup price = some l ∧
        ∀ k, k ≠ price →
          (ob.PlaceOrder s price o).2.1.BidLimits.lookup k = ob.BidLimits.lookup k) ∧
    ((s.order o).Bid = false → ob.AskLimits.lookup price = none →
      (ob.PlaceOrder s price o).2.1.Bids = ob.Bids ∧
      (ob.PlaceOrder s price o).2.1.BidLimits = ob.BidLimits ∧
      ∃ l, (ob.PlaceOrder s price o).2.1.Asks = ob.Asks ++ [l] ∧
        ((ob.PlaceOrder s price o).2.2.limit l).Price = price ∧
        (ob.PlaceOrder s price o).2.1.AskLimits.lookup price = some l ∧
        ∀ k, k ≠ price →
          (ob.PlaceOrder s price o).2.1.AskLimits.lookup k = ob.AskLimits.lookup k) := by
  rw [PlaceOrder_of_size_pos ob s price o hs]
  have hne : ∀ (q : List LimitRef) (x : LimitRef), q ++ [x] ≠ q := fun q x hq => by
    have := congrArg List.length hq
    simp at this
  have hnew : ((NewLimit s price).2.limit s.next).Price = price := by
    have := NewLimit_limit_new s price
    simp only [NewLimit] at this ⊢
    rw [this]
  refine ⟨?_, fun hb hl => ?_, fun hb hl => ?_⟩
  · cases hb : (s.order o).Bid
    · simp only [Bool.false_eq_true, if_false]
      cases hl : ob.AskLimits.lookup price with
      | some k =>
        rw [add_ask_of_some ob s price o hb (by simp [hl])]
        simp
      | none =>
        rw [add_ask_of_none ob s price o hb hl]
        simp [hne]
    · simp only [if_true]
      cases hl : ob.BidLimits.lookup price with
      | some k =>
        rw [add_bid_of_some ob s price o hb (by simp [hl])]
        simp
      | none =>
        rw [add_bid_of_none ob s price o hb hl]
        simp [hne]
  · rw [add_bid_of_none ob s price o hb hl]
    exact ⟨rfl, rfl, s.next, rfl, hnew, AList.lookup_insert _,
      fun k hk => AList.lookup_insert_ne hk⟩
  · rw [add_ask_of_none ob s price o hb hl]
    exact ⟨rfl, rfl, s.next, rfl, hnew, AList.lookup_insert _,
      fun k hk => AList.lookup_insert_ne hk⟩

/-- C15, amended, on the empty book: the buy order of size 10 placed at -1 finds no level at
-1 in `BidLimits`, so the book changes: a level at price -1 is appended to `Bids` and
entered in `BidLimits`, and the ask side is unchanged. -/
theorem C15_nonpositive_price_is_placed_witness :
    (-1 : ℚ) ≤ 0 ∧ 0 < (freshStore.order 2).Size ∧
    (freshStore.order 2).Bid = true ∧ NewOrderbook.BidLimits.lookup (-1) = none ∧
    (((NewOrderbook.PlaceOrder freshStore (-1) 2).2.1.Asks = NewOrderbook.Asks ∧
      (NewOrderbook.PlaceOrder freshStore (-1) 2).2.1.Bids = NewOrderbook.Bids ∧
      (NewOrderbook.PlaceOrder freshStore (-1) 2).2.1.AskLimits = NewOrderbook.AskLimits ∧
      (NewOrderbook.PlaceOrder freshStore (-1) 2).2.1.BidLimits = NewOrderbook.BidLimits) ↔
     (if (freshStore.order 2).Bid then NewOrderbook.BidLimits.lookup (-1)
       else NewOrderbook.AskLimits.lookup (-1)).isSome = true) ∧
    ((NewOrderbook.PlaceOrder freshStore (-1) 2).2.1.Asks = NewOrderbook.Asks ∧
     (NewOrderbook.PlaceOrder freshStore (-1) 2).2.1.AskLimits = NewOrderbook.AskLimits ∧
     ∃ l, (NewOrderbook.PlaceOrder freshStore (-1) 2).2.1.Bids = NewOrderbook.Bids ++ [l] ∧
       ((NewOrderbook.PlaceOrder freshStore (-1) 2).2.2.limit l).Price = -1 ∧
       (NewOrderbook.PlaceOrder freshStore (-1) 2).2.1.BidLimits.lookup (-1) = some l ∧
       ∀ k, k ≠ -1 →
         (NewOrderbook.PlaceOrder freshStore (-1) 2).2.1.BidLimits.lookup k =
           NewOrderbook.BidLimits.lookup k) :=
  ⟨by decide, by decide, by decide, by decide,
    (C15_nonpositive_price_is_placed NewOrderbook freshStore (-1) 2 (by decide)
      (by decide)).1,
    (C15_nonpositive_price_is_placed NewOrderbook freshStore (-1) 2 (by decide)
      (by decide)).2.1 (by decide) (by decide)⟩

/-! ## Deleting, and adding then deleting -/

/-- C16: after `l.DeleteOrder(o)` the timestamps of the queue are non-decreasing, and the
queue is a permutation of the previous queue with the first occurrence of `o` removed, or
of the whole previous queue when `o` does not occur in it. -/
theorem C16_deleteOrder_sorted_permutation (s : Store) (l : LimitRef) (o : OrderRef) :
    (queueTimestamps (Limit.DeleteOrder s l o)
      ((Limit.DeleteOrder s l o).limit l).Orders).Sorted (· ≤ ·) ∧
    ((Limit.DeleteOrder s l o).limit l).Orders.Perm
      (if o ∈ (s.limit l).Orders then (s.limit l).Orders.erase o else (s.limit l).Orders) := by
  have ht : queueTimestamps (Limit.DeleteOrder s l o) = queueTimestamps s := by
    funext q
    simp [queueTimestamps, DeleteOrder_timestamp]
  rw [ht, DeleteOrder_limit_self]
  refine ⟨sortSort_sorted s _, ?_⟩
  by_cases h : o ∈ (s.limit l).Orders
  · simpa [h] using sortSort_perm s ((s.limit l).Orders.erase o)
  · simpa [h, List.erase_of_not_mem h] using sortSort_perm s (s.limit l).Orders

/-- C17: when the timestamps of `l.Orders` are strictly increasing and `o` is not in the
queue, `l.AddOrder(o)` followed by `l.DeleteOrder(o)` gives back the queue and the total
volume there were before, leaves `l.Price` unchanged, and leaves `o.Limit` nil. -/
theorem C17_addOrder_then_deleteOrder (s : Store) (l : LimitRef) (o : OrderRef)
    (hs : (queueTimestamps s (s.limit l).Orders).Sorted (· < ·))
    (ho : o ∉ (s.limit l).Orders) :
    ((Limit.DeleteOrder (Limit.AddOrder s l o) l o).limit l).Orders = (s.limit l).Orders ∧
    ((Limit.DeleteOrder (Limit.AddOrder s l o) l o).limit l).TotalVolume =
      (s.limit l).TotalVolume ∧
    ((Limit.DeleteOrder (Limit.AddOrder s l o) l o).limit l).Price = (s.limit l).Price ∧
    ((Limit.DeleteOrder (Limit.AddOrder s l o) l o).order o).Limit = none := by
  have he : ((s.limit l).Orders ++ [o]).erase o = (s.limit l).Orders := by
    rw [List.erase_append_right _ ho]
    simp
  have hq : sortSort (Limit.AddOrder s l o) (s.limit l).Orders = (s.limit l).Orders := by
    rw [sortSort_congr (AddOrder_timestamp s l o)]
    exact sortSort_fixed s _ hs
  rw [DeleteOrder_limit_self, DeleteOrder_order_self, AddOrder_limit_self, AddOrder_size]
  simp only [he, hq, add_sub_cancel_right, and_self]

/-- C17 at the state of `TestLimit`: order 5, whose timestamp 0 is earlier than those of the
queue 0, 1, 2, is added and then deleted. -/
theorem C17_addOrder_then_deleteOrder_witness :
    (queueTimestamps testLimitStore (testLimitStore.limit 0).Orders).Sorted (· < ·) ∧
    (5 : OrderRef) ∉ (testLimitStore.limit 0).Orders ∧
    (((Limit.DeleteOrder (Limit.AddOrder testLimitStore 0 5) 0 5).limit 0).Orders =
        (testLimitStore.limit 0).Orders ∧
     ((Limit.DeleteOrder (Limit.AddOrder testLimitStore 0 5) 0 5).limit 0).TotalVolume =
        (testLimitStore.limit 0).TotalVolume ∧
     ((Limit.DeleteOrder (Limit.AddOrder testLimitStore 0 5) 0 5).limit 0).Price =
        (testLimitStore.limit 0).Price ∧
     ((Limit.DeleteOrder (Limit.AddOrder testLimitStore 0 5) 0 5).order 5).Limit = none) :=
  ⟨by decide, by decide,
    C17_addOrder_then_deleteOrder testLimitStore 0 5 (by decide) (by decide)⟩

/-! ## The exact effect of `PlaceOrder` -/

theorem agrees_lt_next {ob : Orderbook} {s : Store} (h : ob.Agrees s) {l : LimitRef}
    (hl : l ∈ ob.Asks ∨ l ∈ ob.Bids ∨ l < s.next) : l < s.next := by
  rcases hl with h1 | h1 | h1
  · exact h.2.2.1 l h1
  · exact h.2.2.2 l h1
  · exact h1

/-- C18: on a book whose indices agree with its slices, for an order `o` with `Size > 0`,
`PlaceOrder(price, o)` returns no matches, changes no order and no limit that existed
before, and leaves the slice and the index of the opposite side as they were.  On the side
of `o`: when the index already has a level at that price, the book and the limits are
unchanged; otherwise one new limit, with that price, an empty queue and total volume 0, is
appended at the end of the slice and becomes the value of the index at that price, the
index being unchanged at every other price. -/
theorem C18_placeOrder_exact_effect (ob : Orderbook) (s : Store) (price : ℚ) (o : OrderRef)
    (hA : ob.Agrees s) (hs : 0 < (s.order o).Size) :
    (ob.PlaceOrder s price o).1 = [] ∧
    (∀ x, (ob.PlaceOrder s price o).2.2.order x = s.order x) ∧
    (∀ l, (l ∈ ob.Asks ∨ l ∈ ob.Bids ∨ l < s.next) →
      (ob.PlaceOrder s price o).2.2.limit l = s.limit l) ∧
    ((s.order o).Bid = true →
      (ob.PlaceOrder s price o).2.1.Asks = ob.Asks ∧
      (ob.PlaceOrder s price o).2.1.AskLimits = ob.AskLimits ∧
      ((ob.BidLimits.lookup price).isSome = true →
        (ob.PlaceOrder s price o).2.1 = ob ∧ (ob.PlaceOrder s price o).2.2.limit = s.limit) ∧
      (ob.BidLimits.lookup price = none →
        ∃ l, l ∉ ob.Asks ∧ l ∉ ob.Bids ∧
          (ob.PlaceOrder s price o).2.1.Bids = ob.Bids ++ [l] ∧
          (ob.PlaceOrder s price o).2.2.limit l =
            { Price := price, Orders := [], TotalVolume := 0 } ∧
          (ob.PlaceOrder s price o).2.1.BidLimits.lookup price = some l ∧
          ∀ k, k ≠ price →
            (ob.PlaceOrder s price o).2.1.BidLimits.lookup k = ob.BidLimits.lookup k)) ∧
    ((s.order o).Bid = false →
      (ob.PlaceOrder s price o).2.1.Bids = ob.Bids ∧
      (ob.PlaceOrder s price o).2.1.BidLimits = ob.BidLimits ∧
      ((ob.AskLimits.lookup price).isSome = true →
        (ob.PlaceOrder s price o).2.1 = ob ∧ (ob.PlaceOrder s price o).2.2.limit = s.limit) ∧
      (ob.AskLimits.lookup price = none →
        ∃ l, l ∉ ob.Asks ∧ l ∉ ob.Bids ∧
          (ob.PlaceOrder s price o).2.1.Asks = ob.Asks ++ [l] ∧
          (ob.PlaceOrder s price o).2.2.limit l =
            { Price := price, Orders := [], TotalVolume := 0 } ∧
          (ob.PlaceOrder s price o).2.1.AskLimits.lookup price = some l ∧
          ∀ k, k ≠ price →
            (ob.PlaceOrder s price o).2.1.AskLimits.lookup k = ob.AskLimits.lookup k)) := by
  have hfresh : s.next ∉ ob.Asks ∧ s.next ∉ ob.Bids :=
    ⟨fun h => Nat.lt_irrefl _ (hA.2.2.1 _ h), fun h => Nat.lt_irrefl _ (hA.2.2.2 _ h)⟩
  rw [PlaceOrder_of_size_pos ob s price o hs]
  refine ⟨rfl, fun x => by rw [add_order], fun l hl => add_limit_old ob s price o
    (agrees_lt_next hA hl), fun hb => ?_, fun hb => ?_⟩
  · refine ⟨?_, ?_, fun hl => ?_, fun hl => ?_⟩
    · cases hl : ob.BidLimits.lookup price with
      | some k => rw [add_bid_of_some ob s price o hb (by simp [hl])]
      | none => rw [add_bid_of_none ob s price o hb hl]
    · cases hl : ob.BidLimits.lookup price with
      | some k => rw [add_bid_of_some ob s price o hb (by simp [hl])]
      | none => rw [add_bid_of_none ob s price o hb hl]
    · rw [add_bid_of_some ob s price o hb hl]
      exact ⟨rfl, rfl⟩
    · rw [add_bid_of_none ob s price o hb hl]
      exact ⟨s.next, hfresh.1, hfresh.2, rfl, NewLimit_limit_new s price,
        AList.lookup_insert _, fun k hk => AList.lookup_insert_ne hk⟩
  · refine ⟨?_, ?_, fun hl => ?_, fun hl => ?_⟩
    · cases hl : ob.AskLimits.lookup price with
      | some k => rw [add_ask_of_some ob s price o hb (by simp [hl])]
      | none => rw [add_ask_of_none ob s price o hb hl]
    · cases hl : ob.AskLimits.lookup price with
      | some k => rw [add_ask_of_some ob s price o hb (by simp [hl])]
      | none => rw [add_ask_of_none ob s price o hb hl]
    · rw [add_ask_of_some ob s price o hb hl]
      exact ⟨rfl, rfl⟩
    · rw [add_ask_of_none ob s price o hb hl]
      exact ⟨s.next, hfresh.1, hfresh.2, rfl, NewLimit_limit_new s price,
        AList.lookup_insert _, fun k hk => AList.lookup_insert_ne hk⟩

/-- C18 on the book with asks 10@100 and 5@101: the buy order of size 12 placed at 101 finds
no bid level at 101, so one empty bid level at 101 is appended. -/
theorem C18_placeOrder_exact_effect_witness :
    restingAsksBook.Agrees restingAsksStore ∧
    0 < (restingAsksStore.order 2).Size ∧
    (restingAsksStore.order 2).Bid = true ∧
    restingAsksBook.BidLimits.lookup 101 = none ∧
    (restingAsksBook.PlaceOrder restingAsksStore 101 2).1 = [] ∧
    (∀ x, (restingAsksBook.PlaceOrder restingAsksStore 101 2).2.2.order x =
      restingAsksStore.order x) ∧
    (∀ l, (l ∈ restingAsksBook.Asks ∨ l ∈ restingAsksBook.Bids ∨ l < restingAsksStore.next) →
      (restingAsksBook.PlaceOrder restingAsksStore 101 2).2.2.limit l =
        restingAsksStore.limit l) ∧
    (restingAsksBook.PlaceOrder restingAsksStore 101 2).2.1.Asks = restingAsksBook.Asks ∧
    (restingAsksBook.PlaceOrder restingAsksStore 101 2).2.1.AskLimits =
      restingAsksBook.AskLimits ∧
    (∃ l, l ∉ restingAsksBook.Asks ∧ l ∉ restingAsksBook.Bids ∧
      (restingAsksBook.PlaceOrder restingAsksStore 101 2).2.1.Bids =
        restingAsksBook.Bids ++ [l] ∧
      (restingAsksBook.PlaceOrder restingAsksStore 101 2).2.2.limit l =
        { Price := 101, Orders := [], TotalVolume := 0 } ∧
      (restingAsksBook.PlaceOrder restingAsksStore 101 2).2.1.BidLimits.lookup 101 = some l ∧
      ∀ k, k ≠ 101 →
        (restingAsksBook.PlaceOrder restingAsksStore 101 2).2.1.BidLimits.lookup k =
          restingAsksBook.BidLimits.lookup k) := by
  have hA : restingAsksBook.Agrees restingAsksStore :=
    ⟨by decide, by decide, by decide, by decide⟩
  have T := C18_placeOrder_exact_effect restingAsksBook restingAsksStore 101 2 hA (by decide)
  exact ⟨hA, by decide, by decide, by decide, T.1, T.2.1, T.2.2.1,
    (T.2.2.2.1 (by decide)).1, (T.2.2.2.1 (by decide)).2.1,
    (T.2.2.2.1 (by decide)).2.2.2 (by decide)⟩

/-! ## Prices that may be NaN -/

theorem Float64.eq_iff (a b : Float64) :
    Float64.eq a b = true ↔ a = b ∧ a ≠ Float64.NaN := by
  cases a <;> cases b <;> simp [Float64.eq]

namespace F64

theorem get_nan (m : PriceIndex) : m.get Float64.NaN = none := by
  have h : ∀ es : List (Float64 × LimitRef),
      es.find? (fun e => Float64.eq e.1 Float64.NaN) = none := by
    intro es
    rw [List.find?_eq_none]
    intro e _
    cases h : e.1 <;> simp [Float64.eq]
  simp [PriceIndex.get, h]

theorem get_eq_none_iff (m : PriceIndex) (k : Float64) :
    m.get k = none ↔ ∀ e ∈ m.entries, Float64.eq e.1 k = false := by
  simp [PriceIndex.get, List.find?_eq_none]

theorem find_eq_some_iff (es : List (Float64 × LimitRef)) (h : KeysOk es) (k : Float64)
    (hk : k ≠ Float64.NaN) (v : LimitRef) :
    (es.find? fun e => Float64.eq e.1 k).map Prod.snd = some v ↔ (k, v) ∈ es := by
  induction es with
  | nil => simp
  | cons e es ih =>
    have hok : KeysOk es := by
      refine ⟨(List.nodup_cons.1 h.1).2, fun hn => h.2 ?_⟩
      exact List.mem_cons_of_mem _ hn
    have hfresh : e.1 ∉ es.map Prod.fst := (List.nodup_cons.1 h.1).1
    by_cases he : Float64.eq e.1 k = true
    · have hek : e.1 = k := ((Float64.eq_iff _ _).1 he).1
      simp only [List.find?_cons, he, Option.map_some', Option.some.injEq, List.mem_cons]
      constructor
      · intro hv
        left
        exact Prod.ext hek.symm hv.symm
      · rintro (hv | hv)
        · rw [← hv]
        · exact absurd (List.mem_map.2 ⟨(k, v), hv, rfl⟩) (hek ▸ hfresh)
    · have he' : Float64.eq e.1 k = false := by simpa using he
      simp only [List.find?_cons, he', List.mem_cons]
      rw [ih hok]
      constructor
      · exact Or.inr
      · rintro (hv | hv)
        · exfalso
          apply he
          rw [Float64.eq_iff]
          have : e.1 = k := by rw [← hv]
          exact ⟨this, this ▸ hk⟩
        · exact hv

theorem get_eq_some_iff (m : PriceIndex) (h : KeysOk m.entries) (k : Float64)
    (hk : k ≠ Float64.NaN) (v : LimitRef) : m.get k = some v ↔ (k, v) ∈ m.entries :=
  find_eq_some_iff m.entries h k hk v

theorem set_entries_of_none (m : PriceIndex) (k : Float64) (v : LimitRef)
    (h : m.get k = none) : (m.set k v).entries = (k, v) :: m.entries := by
  have hf : (m.entries.filter fun e => !Float64.eq e.1 k) = m.entries := by
    rw [List.filter_eq_self]
    intro e he
    simp [(get_eq_none_iff m k).1 h e he]
  simp [PriceIndex.set, hf]

theorem keysOk_cons_of_none (m : PriceIndex) (k : Float64) (v : LimitRef)
    (hm : KeysOk m.entries) (hk : k ≠ Float64.NaN) (h : m.get k = none) :
    KeysOk ((k, v) :: m.entries) := by
  refine ⟨?_, ?_⟩
  · simp only [List.map_cons, List.nodup_cons]
    refine ⟨fun hin => ?_, hm.1⟩
    obtain ⟨e, he, hek⟩ := List.mem_map.1 hin
    have h1 := (get_eq_none_iff m k).1 h e he
    have h2 : Float64.eq e.1 k = true := (Float64.eq_iff _ _).2 ⟨hek, hek ▸ hk⟩
    rw [h1] at h2
    exact Bool.false_ne_true h2
  · simp only [List.map_cons, List.mem_cons, not_or]
    exact ⟨fun hn => hk hn.symm, hm.2⟩

theorem indexEntries_append_f64 (s : Store) (ls : List LimitRef) (l : LimitRef) :
    indexEntries s (ls ++ [l]) = ((s.limit l).Price, l) :: indexEntries s ls := by
  simp [indexEntries]

theorem indexEntries_congr_f64 {s t : Store} {ls : List LimitRef}
    (h : ∀ l ∈ ls, t.limit l = s.limit l) : indexEntries t ls = indexEntries s ls := by
  simp only [indexEntries]
  apply List.map_congr_left
  intro l hl
  rw [h l (List.mem_reverse.1 hl)]

theorem NewLimit_limit_old_f64 (s : Store) (price : Float64) {l : LimitRef} (h : l < s.next) :
    (NewLimit s price).2.limit l = s.limit l := by
  simp [NewLimit, Function.update_noteq (Nat.ne_of_lt h)]

theorem NewLimit_limit_new_f64 (s : Store) (price : Float64) :
    (NewLimit s price).2.limit (NewLimit s price).1 =
      { Price := price, Orders := [], TotalVolume := 0 } := by
  simp [NewLimit]

end F64

namespace F64

theorem add_agrees_f64 (ob : Orderbook) (s : Store) (price : Float64) (o : OrderRef)
    (hp : price ≠ Float64.NaN) (h : ob.Agrees s) :
    (ob.add s price o).1.Agrees (ob.add s price o).2 := by
  obtain ⟨ha, hb, hA, hB, kA, kB⟩ := h
  have hold : ∀ ls : List LimitRef, (∀ l ∈ ls, l < s.next) →
      indexEntries (NewLimit s price).2 ls = indexEntries s ls := fun ls hls =>
    indexEntries_congr_f64 fun l hl => NewLimit_limit_old_f64 s price (hls l hl)
  have hnext : ∀ ls : List LimitRef, (∀ l ∈ ls, l < s.next) →
      ∀ l ∈ ls, l < (NewLimit s price).2.next := fun ls hls l hl =>
    Nat.lt_succ_of_lt (hls l hl)
  have hnew : (NewLimit s price).1 < (NewLimit s price).2.next := Nat.lt_succ_self _
  unfold Orderbook.add
  by_cases hbid : (s.order o).Bid = true
  · simp only [hbid, if_true]
    cases hl : ob.BidLimits.get price with
    | some k => exact ⟨ha, hb, hA, hB, kA, kB⟩
    | none =>
      refine ⟨?_, ?_, hnext _ hA, ?_, kA, ?_⟩
      · simpa [hold _ hA] using ha
      · simp only [set_entries_of_none _ _ _ hl, indexEntries_append_f64, NewLimit_limit_new_f64,
          hold _ hB, hb]
      · intro l hl
        rcases List.mem_append.1 hl with h1 | h1
        · exact hnext _ hB l h1
        · rw [List.mem_singleton.1 h1]; exact hnew
      · simp only [set_entries_of_none _ _ _ hl]
        exact keysOk_cons_of_none _ _ _ kB hp hl
  · have hask : (s.order o).Bid = false := by simpa using hbid
    simp only [hask, Bool.false_eq_true, if_false]
    cases hl : ob.AskLimits.get price with
    | some k => exact ⟨ha, hb, hA, hB, kA, kB⟩
    | none =>
      refine ⟨?_, ?_, ?_, hnext _ hB, ?_, kB⟩
      · simp only [set_entries_of_none _ _ _ hl, indexEntries_append_f64, NewLimit_limit_new_f64,
          hold _ hA, ha]
      · simpa [hold _ hB] using hb
      · intro l hl
        rcases List.mem_append.1 hl with h1 | h1
        · exact hnext _ hA l h1
        · rw [List.mem_singleton.1 h1]; exact hnew
      · simp only [set_entries_of_none _ _ _ hl]
        exact keysOk_cons_of_none _ _ _ kA hp hl

theorem PlaceOrder_agrees_f64 (ob : Orderbook) (s : Store) (price : Float64) (o : OrderRef)
    (hp : price ≠ Float64.NaN) (h : ob.Agrees s) :
    (ob.PlaceOrder s price o).2.1.Agrees (ob.PlaceOrder s price o).2.2 := by
  unfold Orderbook.PlaceOrder
  split
  · exact add_agrees_f64 ob s price o hp h
  · exact h

theorem NewOrderbook_agrees_f64 (s : Store) : NewOrderbook.Agrees s := by
  simp [Orderbook.Agrees, NewOrderbook, indexEntries, KeysOk]

theorem runPlaceOrders_agrees_f64 (calls : List (Float64 × OrderRef)) (st : Orderbook × Store)
    (hc : ∀ c ∈ calls, c.1 ≠ Float64.NaN) (h : st.1.Agrees st.2) :
    (runPlaceOrders st calls).1.Agrees (runPlaceOrders st calls).2 := by
  induction calls generalizing st with
  | nil => exact h
  | cons c cs ih =>
    exact ih _ (fun d hd => hc d (List.mem_cons_of_mem _ hd))
      (PlaceOrder_agrees_f64 st.1 st.2 c.1 c.2 (hc c (List.mem_cons_self _ _)) h)

theorem price_ne_nan_of_entries (s : Store) (m : PriceIndex) (ls : List LimitRef)
    (h : m.entries = indexEntries s ls) (hk : KeysOk m.entries) {l : LimitRef}
    (hl : l ∈ ls) : (s.limit l).Price ≠ Float64.NaN := by
  intro hn
  apply hk.2
  rw [h, ← hn]
  simp only [indexEntries, List.map_map, List.mem_map, List.mem_reverse]
  exact ⟨l, hl, rfl⟩

theorem mem_iff_get_of_entries (s : Store) (m : PriceIndex) (ls : List LimitRef)
    (h : m.entries = indexEntries s ls) (hk : KeysOk m.entries) (l : LimitRef) :
    l ∈ ls ↔ m.get (s.limit l).Price = some l := by
  constructor
  · intro hl
    rw [get_eq_some_iff m hk _ (price_ne_nan_of_entries s m ls h hk hl), h]
    simp only [indexEntries, List.mem_map, List.mem_reverse]
    exact ⟨l, hl, rfl⟩
  · intro hg
    have hp : (s.limit l).Price ≠ Float64.NaN := by
      intro hn
      rw [hn, get_nan] at hg
      exact Option.noConfusion hg
    rw [get_eq_some_iff m hk _ hp, h] at hg
    simp only [indexEntries, List.mem_map, List.mem_reverse] at hg
    obtain ⟨j, hj, hjl⟩ := hg
    have : j = l := (Prod.mk.inj hjl).2
    exact this ▸ hj

theorem length_eq_of_entries_f64 (s : Store) (m : PriceIndex) (ls : List LimitRef)
    (h : m.entries = indexEntries s ls) : ls.length = m.len := by
  simp [PriceIndex.len, h, indexEntries]

theorem price_of_get_of_entries (s : Store) (m : PriceIndex) (ls : List LimitRef)
    (h : m.entries = indexEntries s ls) (hk : KeysOk m.entries) (k : Float64) (l : LimitRef)
    (hl : m.get k = some l) : (s.limit l).Price = k := by
  have hp : k ≠ Float64.NaN := by
    intro hn
    rw [hn, get_nan] at hl
    exact Option.noConfusion hl
  rw [get_eq_some_iff m hk _ hp, h] at hl
  simp only [indexEntries, List.mem_map, List.mem_reverse] at hl
  obtain ⟨j, _, hj⟩ := hl
  obtain ⟨h1, h2⟩ := Prod.mk.inj hj
  rw [← h2, h1]

end F64

/-- C10 as stated fails: from the empty book, `PlaceOrder(NaN, o)` for the buy order `o` of
size 10 appends a level whose `Price` is NaN to `Bids` and writes it into `BidLimits` under
the key NaN, where no read finds it: the level at address 0 is in `Bids`, and `BidLimits`
at the price of that level is nil. -/
theorem C10_level_at_nan_price_is_not_indexed_counterexample :
    0 < (F64.freshStore.order 2).Size ∧
    (F64.runPlaceOrders (F64.NewOrderbook, F64.freshStore) [(Float64.NaN, 2)]).1.Bids = [0] ∧
    ((F64.runPlaceOrders (F64.NewOrderbook, F64.freshStore) [(Float64.NaN, 2)]).2.limit
      0).Price = Float64.NaN ∧
    (F64.runPlaceOrders (F64.NewOrderbook, F64.freshStore) [(Float64.NaN, 2)]).1.BidLimits.get
      ((F64.runPlaceOrders (F64.NewOrderbook, F64.freshStore) [(Float64.NaN, 2)]).2.limit
        0).Price = none ∧
    ¬ (∀ l, l ∈ (F64.runPlaceOrders (F64.NewOrderbook, F64.freshStore)
          [(Float64.NaN, 2)]).1.Bids ↔
        (F64.runPlaceOrders (F64.NewOrderbook, F64.freshStore)
          [(Float64.NaN, 2)]).1.BidLimits.get
          ((F64.runPlaceOrders (F64.NewOrderbook, F64.freshStore) [(Float64.NaN, 2)]).2.limit
            l).Price = some l) :=
  ⟨by decide, by decide, by decide, by decide, fun h => absurd ((h 0).1 (by decide)) (by decide)⟩

/-- C10, amended: in every book reached from `NewOrderbook()` by a sequence of `PlaceOrder`
calls whose prices are numbers, none of them NaN, a level is in `Asks` if and only if it is
the value of `AskLimits` at its own price, `Asks` and `AskLimits` have the same number of
entries, every key of `AskLimits` maps to a level whose price is that key, and the same
holds of `Bids` and `BidLimits`. -/
theorem C10_slices_and_indices_agree_at_number_prices (s : F64.Store)
    (calls : List (Float64 × OrderRef)) (hc : ∀ c ∈ calls, c.1 ≠ Float64.NaN) :
    ((∀ l, l ∈ (F64.runPlaceOrders (F64.NewOrderbook, s) calls).1.Asks ↔
        (F64.runPlaceOrders (F64.NewOrderbook, s) calls).1.AskLimits.get
          ((F64.runPlaceOrders (F64.NewOrderbook, s) calls).2.limit l).Price = some l) ∧
     (F64.runPlaceOrders (F64.NewOrderbook, s) calls).1.Asks.length =
        (F64.runPlaceOrders (F64.NewOrderbook, s) calls).1.AskLimits.len ∧
     (∀ k l, (F64.runPlaceOrders (F64.NewOrderbook, s) calls).1.AskLimits.get k = some l →
        ((F64.runPlaceOrders (F64.NewOrderbook, s) calls).2.limit l).Price = k)) ∧
    ((∀ l, l ∈ (F64.runPlaceOrders (F64.NewOrderbook, s) calls).1.Bids ↔
        (F64.runPlaceOrders (F64.NewOrderbook, s) calls).1.BidLimits.get
          ((F64.runPlaceOrders (F64.NewOrderbook, s) calls).2.limit l).Price = some l) ∧
     (F64.runPlaceOrders (F64.NewOrderbook, s) calls).1.Bids.length =
        (F64.runPlaceOrders (F64.NewOrderbook, s) calls).1.BidLimits.len ∧
     (∀ k l, (F64.runPlaceOrders (F64.NewOrderbook, s) calls).1.BidLimits.get k = some l →
        ((F64.runPlaceOrders (F64.NewOrderbook, s) calls).2.limit l).Price = k)) := by
  obtain ⟨ha, hb, _, _, ka, kb⟩ :=
    F64.runPlaceOrders_agrees_f64 calls (F64.NewOrderbook, s) hc (F64.NewOrderbook_agrees_f64 s)
  exact ⟨⟨F64.mem_iff_get_of_entries _ _ _ ha ka, F64.length_eq_of_entries_f64 _ _ _ ha,
      F64.price_of_get_of_entries _ _ _ ha ka⟩,
    ⟨F64.mem_iff_get_of_entries _ _ _ hb kb, F64.length_eq_of_entries_f64 _ _ _ hb,
      F64.price_of_get_of_entries _ _ _ hb kb⟩⟩

/-- C10, amended, at the calls of `TestOrderbook` after a sell order placed at 100: all
three prices are numbers. -/
theorem C10_slices_and_indices_agree_at_number_prices_witness :
    (∀ c ∈ F64.testCalls, c.1 ≠ Float64.NaN) ∧
    (((∀ l, l ∈ (F64.runPlaceOrders (F64.NewOrderbook, F64.freshStore) F64.testCalls).1.Asks ↔
        (F64.runPlaceOrders (F64.NewOrderbook, F64.freshStore) F64.testCalls).1.AskLimits.get
          ((F64.runPlaceOrders (F64.NewOrderbook, F64.freshStore) F64.testCalls).2.limit
            l).Price = some l) ∧
      (F64.runPlaceOrders (F64.NewOrderbook, F64.freshStore) F64.testCalls).1.Asks.length =
        (F64.runPlaceOrders (F64.NewOrderbook, F64.freshStore) F64.testCalls).1.AskLimits.len ∧
      (∀ k l,
        (F64.runPlaceOrders (F64.NewOrderbook, F64.freshStore) F64.testCalls).1.AskLimits.get
          k = some l →
        ((F64.runPlaceOrders (F64.NewOrderbook, F64.freshStore) F64.testCalls).2.limit
          l).Price = k)) ∧
     ((∀ l, l ∈ (F64.runPlaceOrders (F64.NewOrderbook, F64.freshStore) F64.testCalls).1.Bids ↔
        (F64.runPlaceOrders (F64.NewOrderbook, F64.freshStore) F64.testCalls).1.BidLimits.get
          ((F64.runPlaceOrders (F64.NewOrderbook, F64.freshStore) F64.testCalls).2.limit
            l).Price = some l) ∧
      (F64.runPlaceOrders (F64.NewOrderbook, F64.freshStore) F64.testCalls).1.Bids.length =
        (F64.runPlaceOrders (F64.NewOrderbook, F64.freshStore) F64.testCalls).1.BidLimits.len ∧
      (∀ k l,
        (F64.runPlaceOrders (F64.NewOrderbook, F64.freshStore) F64.testCalls).1.BidLimits.get
          k = some l →
        ((F64.runPlaceOrders (F64.NewOrderbook, F64.freshStore) F64.testCalls).2.limit
          l).Price = k))) :=
  ⟨by decide,
    C10_slices_and_indices_agree_at_number_prices F64.freshStore F64.testCalls (by decide)⟩

namespace F64

theorem PriceIndex.eq_of_entries {a b : PriceIndex} (h : a.entries = b.entries) : a = b := by
  cases a
  cases b
  simpa using h

theorem ofIndex_get (m : Exchange.PriceIndex) (k : ℚ) :
    (ofIndex m).get (Float64.num k) = m.lookup k := by
  have h : ∀ es : List (Σ _ : ℚ, LimitRef),
      ((es.map fun e => (Float64.num e.1, e.2)).find?
        fun e => Float64.eq e.1 (Float64.num k)).map Prod.snd = es.dlookup k := by
    intro es
    induction es with
    | nil => rfl
    | cons e es ih =>
      obtain ⟨a, b⟩ := e
      rw [List.map_cons, List.find?_cons]
      by_cases hak : a = k
      · subst hak
        have he : Float64.eq (Float64.num a) (Float64.num a) = true := by simp [Float64.eq]
        simp only [he, Option.map_some', List.dlookup_cons_eq]
      · have hka : ¬ k = a := fun h => hak h.symm
        have he : Float64.eq (Float64.num a) (Float64.num k) = false := by
          simp [Float64.eq, hak]
        simp only [he]
        rw [ih, List.dlookup_cons_ne _ _ hka]
  exact h m.entries

theorem ofIndex_insert (m : Exchange.PriceIndex) (k : ℚ) (v : LimitRef)
    (h : m.lookup k = none) :
    ofIndex (m.insert k v) = (ofIndex m).set (Float64.num k) v := by
  have hk : k ∉ m := AList.lookup_eq_none.1 h
  have hg : (ofIndex m).get (Float64.num k) = none := by rw [ofIndex_get, h]
  apply PriceIndex.eq_of_entries
  rw [set_entries_of_none (ofIndex m) (Float64.num k) v hg]
  simp only [ofIndex, AList.insert_entries_of_neg hk, List.map_cons]

theorem ofStore_NewLimit (s : Exchange.Store) (price : ℚ) :
    NewLimit (ofStore s) (Float64.num price) =
      ((Exchange.NewLimit s price).1, ofStore (Exchange.NewLimit s price).2) := by
  simp only [NewLimit, Exchange.NewLimit, ofStore, Prod.mk.injEq, true_and, Store.mk.injEq,
    and_true]
  funext l
  by_cases h : l = s.next
  · subst h
    simp [ofLimit]
  · simp [Function.update_noteq h]

/-- On a price that is a number, `Orderbook.add` over `float64` prices does what
`Orderbook.add` over exact prices does. -/
theorem ofOrderbook_add (ob : Exchange.Orderbook) (s : Exchange.Store) (price : ℚ)
    (o : OrderRef) :
    (ofOrderbook ob).add (ofStore s) (Float64.num price) o =
      (ofOrderbook (ob.add s price o).1, ofStore (ob.add s price o).2) := by
  unfold Orderbook.add Exchange.Orderbook.add
  have ho : (ofStore s).order o = s.order o := rfl
  cases hb : (s.order o).Bid
  · simp only [ho, hb, Bool.false_eq_true, if_false, ofOrderbook, ofIndex_get]
    cases hl : ob.AskLimits.lookup price with
    | some k => rfl
    | none => simp [ofStore_NewLimit, ofIndex_insert _ _ _ hl]
  · simp only [ho, hb, if_true, ofOrderbook, ofIndex_get]
    cases hl : ob.BidLimits.lookup price with
    | some k => rfl
    | none => simp [ofStore_NewLimit, ofIndex_insert _ _ _ hl]

/-- On a price that is a number, `PlaceOrder` over `float64` prices does what `PlaceOrder`
over exact prices does. -/
theorem ofOrderbook_PlaceOrder (ob : Exchange.Orderbook) (s : Exchange.Store) (price : ℚ)
    (o : OrderRef) :
    (ofOrderbook ob).PlaceOrder (ofStore s) (Float64.num price) o =
      ((ob.PlaceOrder s price o).1, ofOrderbook (ob.PlaceOrder s price o).2.1,
        ofStore (ob.PlaceOrder s price o).2.2) := by
  unfold Orderbook.PlaceOrder Exchange.Orderbook.PlaceOrder
  have ho : (ofStore s).order o = s.order o := rfl
  by_cases h : (s.order o).Size > 0
  · simp only [ho, h, if_true, ofOrderbook_add]
  · simp only [ho, h, if_false]

end F64

end Exchange
